import Mathlib

/-!
Verification development for the `MotleyKuzuGraphStore` graph-store adapter
(`motleycrew/storage/kuzu_graph_store.py`).

The adapter maps typed, schema-validated node objects (pydantic models) onto
the Kuzu embedded graph database.  We give a shallow embedding:

* the Kuzu database state, as observed and mutated through the exact queries
  the adapter issues, is a `StoreState` (node tables with a SERIAL `id`
  column, relation tables keyed by the (name, src, dst) triple, plus the
  per-class pydantic `model_config` frozen flags, which live on the Python
  class, keyed here by class label);
* pydantic node classes/objects are `NodeClass`/`NodeObj`;
* `json.dumps` / `json.loads` are modelled on the JSON fragment the adapter
  can store (null, booleans, integers, strings, arrays of strings), with
  string escaping for quote and backslash characters;
* fallible Python code (assert failures, raised exceptions) returns
  `Except String _`.
-/

/-- Escaping of a string body as performed by `json.dumps`: quote and
backslash are escaped with a backslash. -/
def escapeChars : List Char → List Char
  | [] => []
  | c :: cs => (if c = '"' ∨ c = '\\' then ['\\', c] else [c]) ++ escapeChars cs

/-- Serialized form of one JSON string, with the surrounding quotes. -/
def dumpStrChars (s : String) : List Char :=
  '"' :: (escapeChars s.data ++ ['"'])

/-- Serialized items of a JSON array, separated by a comma and a space,
exactly as `json.dumps` prints a Python list. -/
def dumpItemsChars : List String → List Char
  | [] => []
  | [x] => dumpStrChars x
  | x :: y :: xs => dumpStrChars x ++ ',' :: ' ' :: dumpItemsChars (y :: xs)

/-- Python values that can appear as pydantic field values in this model. -/
inductive PyValue where
  | vNone
  | vInt (n : Int)
  | vBool (b : Bool)
  | vStr (s : String)
  | vStrList (xs : List String)
deriving DecidableEq

/-- Model of `json.dumps` on the storable fragment. -/
def pyDumps : PyValue → String
  | .vNone => "null"
  | .vBool true => "true"
  | .vBool false => "false"
  | .vInt n => toString n
  | .vStr s => ⟨dumpStrChars s⟩
  | .vStrList xs => ⟨'[' :: (dumpItemsChars xs ++ [']'])⟩

/-- String-literal body scanner: collects characters until the closing
unescaped quote, resolving backslash escapes.  Returns the content and the
remaining input. -/
def parseStrAux (acc : List Char) (esc : Bool) : List Char → Option (String × List Char)
  | [] => none
  | c :: rest =>
    if esc then parseStrAux (c :: acc) false rest
    else if c = '\\' then parseStrAux acc true rest
    else if c = '"' then some (⟨acc.reverse⟩, rest)
    else parseStrAux (c :: acc) false rest

/-- Scanner for the items of a nonempty JSON array of strings (input starts
at the opening quote of the first item); fuel-indexed for termination. -/
def parseItemsFuel : Nat → List Char → Option (List String × List Char)
  | 0, _ => none
  | fuel + 1, cs =>
    match cs with
    | '"' :: rest =>
      match parseStrAux [] false rest with
      | some (s, ']' :: r2) => some ([s], r2)
      | some (s, ',' :: ' ' :: r3) =>
        match parseItemsFuel fuel r3 with
        | some (ss, r4) => some (s :: ss, r4)
        | none => none
      | _ => none
    | _ => none

/-- Model of `json.loads` on the storable fragment; `none` models a raised
`json.JSONDecodeError`. -/
def pyLoads (s : String) : Option PyValue :=
  if s = "null" then some .vNone
  else if s = "true" then some (.vBool true)
  else if s = "false" then some (.vBool false)
  else
    match s.data with
    | '"' :: rest =>
      match parseStrAux [] false rest with
      | some (str, []) => some (.vStr str)
      | _ => none
    | '[' :: ']' :: rest => if rest = [] then some (.vStrList []) else none
    | '[' :: rest =>
      match parseItemsFuel rest.length rest with
      | some (xs, []) => some (.vStrList xs)
      | _ => none
    | _ =>
      match (String.mk s.data).toInt? with
      | some n => some (.vInt n)
      | none => none

/-- `MotleyKuzuGraphStore.JSON_CONTENT_PREFIX` test: `value.startswith("JSON__")`. -/
def hasJsonTag (s : String) : Bool :=
  decide (s.data.take 6 = "JSON__".data)

/-- `value[len(JSON_CONTENT_PREFIX):]`. -/
def stripJsonTag (s : String) : String :=
  ⟨s.data.drop 6⟩

/-! ## Data model: pydantic node classes and objects -/

/-- Type annotations recognised by `PYTHON_TO_CYPHER_TYPES_MAPPING`, plus the
two list-of-strings annotations standing for annotations with no direct
column-type mapping (the repository's own example uses
`context: Optional[List[str]]`).  `DOUBLE`-mapped float annotations are not
modelled (floating point). -/
inductive PyType where
  | tInt
  | tOptInt
  | tStr
  | tOptStr
  | tBool
  | tOptBool
  | tStrList
  | tOptStrList
deriving DecidableEq

/-- `_get_cypher_type_and_is_json_by_python_type_annotation`: the Cypher
column type and whether values are stored as JSON-serialized strings. -/
def cypherTypeAndIsJson : PyType → String × Bool
  | .tInt => ("INT64", false)
  | .tOptInt => ("INT64", false)
  | .tStr => ("STRING", false)
  | .tOptStr => ("STRING", false)
  | .tBool => ("BOOLEAN", false)
  | .tOptBool => ("BOOLEAN", false)
  | .tStrList => ("STRING", true)
  | .tOptStrList => ("STRING", true)

def isJsonType (ty : PyType) : Bool :=
  (cypherTypeAndIsJson ty).2

/-- Pydantic field-level validation of a value against its declared type. -/
def validates : PyType → PyValue → Bool
  | .tInt, .vInt _ => true
  | .tOptInt, .vInt _ => true
  | .tOptInt, .vNone => true
  | .tStr, .vStr _ => true
  | .tOptStr, .vStr _ => true
  | .tOptStr, .vNone => true
  | .tBool, .vBool _ => true
  | .tOptBool, .vBool _ => true
  | .tOptBool, .vNone => true
  | .tStrList, .vStrList _ => true
  | .tOptStrList, .vStrList _ => true
  | .tOptStrList, .vNone => true
  | _, _ => false

/-- A pydantic node class: its label (`get_label()`, the class name) and its
`model_fields` (field name, type annotation), in declaration order. -/
structure NodeClass where
  label : String
  fields : List (String × PyType)
deriving DecidableEq

/-- A node object: its class, its current field values (`model_dump()`), and
the `_id` attribute (`None` while transient). -/
structure NodeObj where
  cls : NodeClass
  values : List (String × PyValue)
  id : Option Int
deriving DecidableEq

/-- First-match lookup in an association list keyed by strings (Python dict
lookup; keys are unique in the dicts the adapter builds). -/
def lookupField {α : Type} : List (String × α) → String → Option α
  | [], _ => none
  | (f, v) :: rest, k => if f = k then some v else lookupField rest k

/-! ## Database state -/

/-- Values as stored in a Kuzu column (INT64, BOOLEAN or STRING). -/
inductive DbValue where
  | dInt (n : Int)
  | dBool (b : Bool)
  | dStr (s : String)
deriving DecidableEq

/-- A Kuzu node table: name, column names (the SERIAL primary key `id`
first), rows (id together with the explicitly written column values; columns
absent from a row read back as NULL), and the next SERIAL value. -/
structure NodeTable where
  name : String
  properties : List String
  rows : List (Int × List (String × DbValue))
  nextId : Int
deriving DecidableEq

/-- A Kuzu relation table: one per (name, src, dst) triple, holding directed
edges as (from-id, to-id) pairs. -/
structure RelTable where
  name : String
  src : String
  dst : String
  edges : List (Int × Int)
deriving DecidableEq

/-- The whole observable state: the database (node and relation tables) plus
the per-class pydantic `model_config["frozen"]` flags (the set of labels
whose class is currently frozen — the flag lives on the Python class, not on
individual objects). -/
structure StoreState where
  nodeTables : List NodeTable
  relTables : List RelTable
  frozen : List String
deriving DecidableEq

def emptyStore : StoreState :=
  { nodeTables := [], relTables := [], frozen := [] }

/-- First table with the given name (Kuzu table names are catalog keys). -/
def findNodeTable : List NodeTable → String → Option NodeTable
  | [], _ => none
  | t :: rest, label => if t.name = label then some t else findNodeTable rest label

/-- Update the (first) table with the given name. -/
def updateNodeTableFirst : List NodeTable → String → (NodeTable → NodeTable) → List NodeTable
  | [], _, _ => []
  | t :: rest, label, f =>
    if t.name = label then f t :: rest else t :: updateNodeTableFirst rest label f

/-- `_check_node_table_exists`. -/
def checkNodeTableExists (st : StoreState) (label : String) : Bool :=
  (findNodeTable st.nodeTables label).isSome

/-- The row filter of `_check_rel_table_exists`:
`(rel_label is None or name == rel_label) and src == from and dst == to`. -/
def relTableMatches (t : RelTable) (src dst : String) (rel : Option String) : Bool :=
  (match rel with
   | none => true
   | some l => decide (t.name = l)) && decide (t.src = src) && decide (t.dst = dst)

/-- `_check_rel_table_exists`. -/
def checkRelTableExists (st : StoreState) (src dst : String) (rel : Option String) : Bool :=
  st.relTables.any (fun t => relTableMatches t src dst rel)

/-- Membership of a label in a label set (frozen-class bookkeeping). -/
def labelMem (l : List String) (x : String) : Bool :=
  l.any (fun y => decide (y = x))

/-- `_freeze_node`: sets `model_config["frozen"] = True` on the node's class. -/
def addFrozen (l : List String) (label : String) : List String :=
  if labelMem l label then l else label :: l

/-- `_unfreeze_node`: sets `model_config["frozen"] = False` on the node's class. -/
def removeFrozen (l : List String) (label : String) : List String :=
  l.filter (fun x => !(decide (x = label)))

/-! ## Schema synchronization -/

/-- The column-creation loop of `_ensure_node_table`: add a column for every
model field not yet present. -/
def ensureColumns (props : List String) : List (String × PyType) → List String
  | [] => props
  | (f, _) :: rest =>
    ensureColumns (if f ∈ props then props else props ++ [f]) rest

/-- `_ensure_node_table`: create the table (`id SERIAL` primary key) if
absent, then add all missing property columns. -/
def ensureNodeTable (st : StoreState) (cls : NodeClass) : StoreState :=
  let tables1 :=
    match findNodeTable st.nodeTables cls.label with
    | some _ => st.nodeTables
    | none => st.nodeTables ++ [{ name := cls.label, properties := ["id"], rows := [], nextId := 0 }]
  { st with
    nodeTables := updateNodeTableFirst tables1 cls.label
      (fun t => { t with properties := ensureColumns t.properties cls.fields }) }

/-- `_ensure_relation_table`: create the relation table for the
(from-label, to-label, label) triple if absent. -/
def ensureRelationTable (st : StoreState) (fromCls toCls : NodeClass) (label : String) : StoreState :=
  if checkRelTableExists st fromCls.label toCls.label (some label) then st
  else { st with relTables := st.relTables ++ [{ name := label, src := fromCls.label, dst := toCls.label, edges := [] }] }

/-! ## Existence checks -/

/-- `check_node_exists_by_class_and_id`. -/
def checkNodeExistsByClassAndId (st : StoreState) (cls : NodeClass) (nodeId : Int) : Bool :=
  match findNodeTable st.nodeTables cls.label with
  | none => false
  | some t => t.rows.any (fun r => decide (r.1 = nodeId))

/-- `check_node_exists`. -/
def checkNodeExists (st : StoreState) (n : NodeObj) : Bool :=
  match n.id with
  | none => false
  | some i => checkNodeExistsByClassAndId st n.cls i

/-- `check_relation_exists`: false if either node lacks an id, or either
node table or a matching relation table is absent; otherwise whether a
matching directed edge exists. -/
def checkRelationExists (st : StoreState) (fromN toN : NodeObj) (label : Option String) : Bool :=
  match fromN.id, toN.id with
  | some fid, some tid =>
    if checkNodeTableExists st fromN.cls.label
        && checkNodeTableExists st toN.cls.label
        && checkRelTableExists st fromN.cls.label toN.cls.label label then
      st.relTables.any (fun t =>
        relTableMatches t fromN.cls.label toN.cls.label label
          && t.edges.any (fun e => decide (e = (fid, tid))))
    else false
  | _, _ => false

/-! ## Serialization -/

/-- The JSON-prefix encoding on write:
`JSON_CONTENT_PREFIX + json.dumps(value)` stored in a STRING column. -/
def jsonEncode (v : PyValue) : DbValue :=
  .dStr ⟨"JSON__".data ++ (pyDumps v).data⟩

/-- Passing a Python value as a Cypher parameter for a directly-mapped
column; list values or `None` cannot be bound (the driver raises). -/
def pyToDbValue : PyValue → Except String DbValue
  | .vInt n => .ok (.dInt n)
  | .vBool b => .ok (.dBool b)
  | .vStr s => .ok (.dStr s)
  | _ => .error "unsupported parameter type"

/-- Encode one field value for storage according to its annotation. -/
def encodeField (ty : PyType) (v : PyValue) : Except String DbValue :=
  if isJsonType ty then .ok (jsonEncode v) else pyToDbValue v

/-- `_node_to_cypher_mapping_with_parameters`: iterate over `model_dump()`,
skip `None` values, JSON-encode fields whose annotation has no direct
mapping.  Returns the bound parameters. -/
def nodeParams (cls : NodeClass) : List (String × PyValue) → Except String (List (String × DbValue))
  | [] => .ok []
  | (f, v) :: rest =>
    if v = .vNone then nodeParams cls rest
    else
      match lookupField cls.fields f with
      | none => .error "KeyError: field not in model_fields"
      | some ty =>
        match encodeField ty v with
        | .error e => .error e
        | .ok dv =>
          match nodeParams cls rest with
          | .error e => .error e
          | .ok tail => .ok ((f, dv) :: tail)

/-- Reading a stored column value back into Python (Kuzu returns NULL for
columns a row never wrote, surfacing as `None`). -/
def dbToPyRaw : DbValue → PyValue
  | .dInt n => .vInt n
  | .dBool b => .vBool b
  | .dStr s => .vStr s

/-- The `node_dict` a `MATCH ... RETURN n` row yields: every table column,
the primary key `id` included, with NULL for unwritten columns. -/
def rowToDict (props : List String) (rowId : Int) (row : List (String × DbValue)) : List (String × PyValue) :=
  props.map (fun p =>
    (p, if p = "id" then .vInt rowId
        else
          match lookupField row p with
          | some dv => dbToPyRaw dv
          | none => .vNone))

/-- The per-value part of the JSON-decoding loop in
`get_node_by_class_and_id`: a string value carrying the `JSON__` marker is
stripped and `json.loads`-decoded (a decode failure propagates). -/
def decodeVal : PyValue → Except String PyValue
  | .vStr s =>
    if hasJsonTag s then
      match pyLoads (stripJsonTag s) with
      | some j => .ok j
      | none => .error "json.JSONDecodeError"
    else .ok (.vStr s)
  | v => .ok v

/-- The JSON-decoding loop over the whole `node_dict`. -/
def decodeJsonFields : List (String × PyValue) → Except String (List (String × PyValue))
  | [] => .ok []
  | (f, v) :: rest =>
    match decodeVal v with
    | .error e => .error e
    | .ok v2 =>
      match decodeJsonFields rest with
      | .error e => .error e
      | .ok rest2 => .ok ((f, v2) :: rest2)

/-- Reading one returned row: build the `node_dict`, then run the
JSON-decoding loop.  (`get_node_by_class_and_id` applies this before
`parse_obj`.) -/
def readRow (props : List String) (rowId : Int) (row : List (String × DbValue)) : Except String (List (String × PyValue)) :=
  decodeJsonFields (rowToDict props rowId row)

/-- `node_class.parse_obj`: validate each declared field against the dict
(missing keys read as `None`); extra dict keys such as `id` are ignored. -/
def parseFields : List (String × PyType) → List (String × PyValue) → Except String (List (String × PyValue))
  | [], _ => .ok []
  | (f, ty) :: rest, dict =>
    let v := (lookupField dict f).getD .vNone
    if validates ty v then
      match parseFields rest dict with
      | .error e => .error e
      | .ok tail => .ok ((f, v) :: tail)
    else .error "pydantic.ValidationError"

/-- `parse_obj` builds a fresh object; the `_id` attribute is not among the
model fields, so the reconstructed object is transient. -/
def parseObj (cls : NodeClass) (dict : List (String × PyValue)) : Except String NodeObj :=
  match parseFields cls.fields dict with
  | .error e => .error e
  | .ok vals => .ok { cls := cls, values := vals, id := none }

/-! ## Store operations -/

/-- `get_node_by_class_and_id`: `None` when the table or the row is absent;
otherwise JSON-decode marked values and `parse_obj` the dict. -/
def getNodeByClassAndId (st : StoreState) (cls : NodeClass) (nodeId : Int) : Except String (Option NodeObj) :=
  match findNodeTable st.nodeTables cls.label with
  | none => .ok none
  | some t =>
    match t.rows.find? (fun r => decide (r.1 = nodeId)) with
    | none => .ok none
    | some (rid, row) =>
      match readRow t.properties rid row with
      | .error e => .error e
      | .ok dict2 =>
        match parseObj cls dict2 with
        | .error e => .error e
        | .ok node => .ok (some node)

/-- `insert_node`: asserts the id is unset, ensures the schema, serializes
the non-null fields, creates the row (receiving the generated SERIAL id),
then sets the id on the object and freezes its class. -/
def insertNode (st : StoreState) (n : NodeObj) : Except String (NodeObj × StoreState) :=
  match n.id with
  | some _ => .error "assert failed: Entity has its id set, looks like it is already in the DB"
  | none =>
    let st1 := ensureNodeTable st n.cls
    match nodeParams n.cls n.values with
    | .error e => .error e
    | .ok params =>
      match findNodeTable st1.nodeTables n.cls.label with
      | none => .error "Binder exception: table does not exist"
      | some t =>
        let newId := t.nextId
        let st2 : StoreState :=
          { st1 with
            nodeTables := updateNodeTableFirst st1.nodeTables n.cls.label
              (fun t0 => { t0 with rows := t0.rows ++ [(newId, params)], nextId := t0.nextId + 1 }),
            frozen := addFrozen st1.frozen n.cls.label }
        .ok ({ n with id := some newId }, st2)

/-- The edge insertion of `create_relation`'s `CREATE` query: the edge goes
into the relation table keyed by (label, from-label, to-label). -/
def addEdgeFirst : List RelTable → String → String → String → (Int × Int) → List RelTable
  | [], _, _, _, _ => []
  | t :: rest, name, src, dst, e =>
    if relTableMatches t src dst (some name) then { t with edges := t.edges ++ [e] } :: rest
    else t :: addEdgeFirst rest name src dst e

/-- `create_relation`: asserts both endpoints exist, ensures the relation
table, then creates the directed edge. -/
def createRelation (st : StoreState) (fromN toN : NodeObj) (label : String) : Except String StoreState :=
  if checkNodeExists st fromN = false then
    .error "assert failed: From-node is not present in the database"
  else if checkNodeExists st toN = false then
    .error "assert failed: To-node is not present in the database"
  else
    match fromN.id, toN.id with
    | some fid, some tid =>
      let st1 := ensureRelationTable st fromN.cls toN.cls label
      .ok { st1 with relTables := addEdgeFirst st1.relTables label fromN.cls.label toN.cls.label (fid, tid) }
    | _, _ => .error "unreachable: existing nodes have ids"

/-- `upsert_triplet`: insert either endpoint if not persisted, then create
the relation unless an equivalent one already exists.  Returns the (possibly
mutated) endpoint objects together with the new state. -/
def upsertTriplet (st : StoreState) (fromN toN : NodeObj) (label : String) : Except String (NodeObj × NodeObj × StoreState) :=
  match (if checkNodeExists st fromN then .ok (fromN, st) else insertNode st fromN : Except String (NodeObj × StoreState)) with
  | .error e => .error e
  | .ok (f1, st1) =>
    match (if checkNodeExists st1 toN then .ok (toN, st1) else insertNode st1 toN : Except String (NodeObj × StoreState)) with
    | .error e => .error e
    | .ok (t1, st2) =>
      if checkRelationExists st2 f1 t1 (some label) then .ok (f1, t1, st2)
      else
        match createRelation st2 f1 t1 label with
        | .error e => .error e
        | .ok st3 => .ok (f1, t1, st3)

/-- `inner_delete_relations`: two directed match-and-delete queries, removing
the node's outgoing edges (tables whose src is its label) and incoming edges
(tables whose dst is its label). -/
def deleteEdgesFor (tables : List RelTable) (label : String) (nid : Int) : List RelTable :=
  tables.map (fun t =>
    let e1 := if t.src = label then t.edges.filter (fun e => !(decide (e.1 = nid))) else t.edges
    let e2 := if t.dst = label then e1.filter (fun e => !(decide (e.2 = nid))) else e1
    { t with edges := e2 })

/-- `delete_node`: asserts existence, deletes incident edges in both
directions (skipped wholesale when no relation tables exist), deletes the
row, then unfreezes the class and clears the object's id. -/
def deleteNode (st : StoreState) (n : NodeObj) : Except String (NodeObj × StoreState) :=
  if checkNodeExists st n = false then
    .error "assert failed: Cannot delete nonexistent node"
  else
    match n.id with
    | none => .error "unreachable: existing node has an id"
    | some nid =>
      let rels1 := if st.relTables.isEmpty then st.relTables else deleteEdgesFor st.relTables n.cls.label nid
      let tables1 := updateNodeTableFirst st.nodeTables n.cls.label
        (fun t => { t with rows := t.rows.filter (fun r => !(decide (r.1 = nid))) })
      .ok ({ n with id := none },
           { nodeTables := tables1, relTables := rels1, frozen := removeFrozen st.frozen n.cls.label })

/-- The `SET` query's effect on the matched row. -/
def setRowValue (row : List (String × DbValue)) (k : String) (dv : DbValue) : List (String × DbValue) :=
  if row.any (fun p => decide (p.1 = k)) then
    row.map (fun p => if p.1 = k then (p.1, dv) else p)
  else row ++ [(k, dv)]

/-- `setattr` on the Python object's declared field. -/
def setObjValue (vals : List (String × PyValue)) (k : String) (v : PyValue) : List (String × PyValue) :=
  vals.map (fun p => if p.1 = k then (p.1, v) else p)

/-- `set_property`: reject `None` (engine limitation), look up the table's
columns (raises if the table is absent), assert the field is declared and
the node exists and the column is present, validate before writing
(`validate_assignment` on a throwaway `model_construct()`), encode per the
JSON rule, write, then momentarily unfreeze the class, set the attribute,
and freeze again. -/
def setProperty (st : StoreState) (n : NodeObj) (propName : String) (v : PyValue) : Except String (NodeObj × StoreState) :=
  if v = .vNone then
    .error "Kuzu does not support NoneType parameters for properties for now"
  else
    match findNodeTable st.nodeTables n.cls.label with
    | none => .error "RuntimeError: table does not exist in catalog"
    | some t =>
      match lookupField n.cls.fields propName with
      | none => .error "assert failed: No such field in node model"
      | some ty =>
        if checkNodeExists st n = false then .error "assert failed: node does not exist"
        else if !(t.properties.any (fun p => decide (p = propName))) then
          .error "assert failed: No such field in DB table"
        else if validates ty v = false then .error "pydantic.ValidationError"
        else
          match encodeField ty v with
          | .error e => .error e
          | .ok dv =>
            match n.id with
            | none => .error "unreachable: existing node has an id"
            | some nid =>
              let tables1 := updateNodeTableFirst st.nodeTables n.cls.label
                (fun t0 => { t0 with rows := t0.rows.map (fun r => if r.1 = nid then (r.1, setRowValue r.2 propName dv) else r) })
              .ok ({ n with values := setObjValue n.values propName v },
                   { st with nodeTables := tables1,
                             frozen := addFrozen (removeFrozen st.frozen n.cls.label) n.cls.label })

/-- Plain Python attribute assignment `node.field = value` outside the
store's API: pydantic raises iff the object's class is currently frozen. -/
def directSetAttr (st : StoreState) (n : NodeObj) (f : String) (v : PyValue) : Except String NodeObj :=
  if labelMem st.frozen n.cls.label then .error "pydantic frozen-instance error"
  else .ok { n with values := setObjValue n.values f v }

/-! ## Observation helpers for the theorems -/

/-- Number of rows with a given id in a label's table. -/
def rowCount (st : StoreState) (label : String) (nid : Int) : Nat :=
  match findNodeTable st.nodeTables label with
  | none => 0
  | some t => t.rows.countP (fun r => decide (r.1 = nid))

/-- The SERIAL id the next insert into the label's table will receive. -/
def freshId (st : StoreState) (label : String) : Int :=
  match findNodeTable st.nodeTables label with
  | none => 0
  | some t => t.nextId

/-- SERIAL-counter sanity: every stored row id is below the counter. -/
def tableOkB (st : StoreState) (label : String) : Bool :=
  match findNodeTable st.nodeTables label with
  | none => true
  | some t => t.rows.all (fun r => decide (r.1 < t.nextId))

/-- Number of relation rows equal to (fid, tid) across the tables for the
(label, src, dst) triple. -/
def matchCount (st : StoreState) (src dst lbl : String) (fid tid : Int) : Nat :=
  ((st.relTables.filter (fun t => relTableMatches t src dst (some lbl))).map
    (fun t => t.edges.countP (fun e => decide (e = (fid, tid))))).sum

/-- Total number of edges across the relation tables matching (src, dst) and
the optional label filter. -/
def totalEdges (st : StoreState) (src dst : String) (lbl : Option String) : Nat :=
  ((st.relTables.filter (fun t => relTableMatches t src dst lbl)).map
    (fun t => t.edges.length)).sum


/-- The node table for the class after `_ensure_node_table` ran. -/
def ensuredTable (st : StoreState) (cls : NodeClass) : NodeTable :=
  match findNodeTable st.nodeTables cls.label with
  | some t => { t with properties := ensureColumns t.properties cls.fields }
  | none => { name := cls.label, properties := ensureColumns ["id"] cls.fields, rows := [], nextId := 0 }

/-- Normal form of the state `insert_node` produces on success. -/
def insertedState (st : StoreState) (n : NodeObj) (params : List (String × DbValue)) : StoreState :=
  let st1 := ensureNodeTable st n.cls
  { st1 with
    nodeTables := updateNodeTableFirst st1.nodeTables n.cls.label
      (fun t0 => { t0 with rows := t0.rows ++ [((ensuredTable st n.cls).nextId, params)], nextId := t0.nextId + 1 }),
    frozen := addFrozen st1.frozen n.cls.label }

deriving instance DecidableEq for Except


/-! ## Concrete scenario used by the witnesses (mirrors the module's own
`__main__` smoke test: a `Question` class with a plain string field, an
optional string field and an optional list-of-strings field). -/

def qCls : NodeClass :=
  { label := "Question",
    fields := [("question", .tStr), ("answer", .tOptStr), ("context", .tOptStrList)] }

def qNodeA : NodeObj :=
  { cls := qCls, values := [("question", .vStr "q1"), ("answer", .vNone), ("context", .vNone)], id := none }

def qNodeB : NodeObj :=
  { cls := qCls, values := [("question", .vStr "q2"), ("answer", .vStr "a2"), ("context", .vNone)], id := none }

/-- The state and objects after `upsert_triplet(q1, q2, "p")` on a fresh store. -/
def upsertRun : NodeObj × NodeObj × StoreState :=
  (upsertTriplet emptyStore qNodeA qNodeB "p").toOption.getD (qNodeA, qNodeB, emptyStore)

/-- The object and state after `insert_node(q1)` on a fresh store. -/
def insertRun : NodeObj × StoreState :=
  (insertNode emptyStore qNodeA).toOption.getD (qNodeA, emptyStore)


/-- The object and state after `delete_node(q1)` on the store holding q1. -/
def deleteRun : NodeObj × StoreState :=
  (deleteNode insertRun.2 insertRun.1).toOption.getD (qNodeA, emptyStore)

/-- Insert q1 and q2 (same class), then delete q2: the scenario observing
what deleting one object does to its sibling's immutability. -/
def frozenRun : NodeObj × StoreState :=
  match insertNode emptyStore qNodeA with
  | .ok (n1, st1) =>
    match insertNode st1 qNodeB with
    | .ok (n2, st2) =>
      match deleteNode st2 n2 with
      | .ok (_, st3) => (n1, st3)
      | .error _ => (n1, st2)
    | .error _ => (n1, st1)
  | .error _ => (qNodeA, emptyStore)


/-- Decidable well-typedness of a node object: every field value passes its
declared field's validation. -/
def wellTypedB (n : NodeObj) : Bool :=
  n.values.all (fun q =>
    match lookupField n.cls.fields q.1 with
    | some ty => validates ty q.2
    | none => true)

/-- Decidable absence of the reserved `JSON__` marker among the node's plain
string values. -/
def noTagB (n : NodeObj) : Bool :=
  n.values.all (fun q =>
    match q.2 with
    | .vStr s2 => !(hasJsonTag s2)
    | _ => true)

/-- A class with a single plain string field, and an instance whose string
value itself starts with the reserved `JSON__` marker. -/
def pCls : NodeClass := { label := "Q", fields := [("question", .tStr)] }

def pNodeTagged : NodeObj :=
  { cls := pCls, values := [("question", .vStr "JSON__[]")], id := none }

/-- The store after inserting the marker-carrying node. -/
def taggedRun : StoreState :=
  ((insertNode emptyStore pNodeTagged).toOption.map (fun p => p.2)).getD emptyStore


/-- A node carrying a list-of-strings value in its JSON-encoded field. -/
def qNodeC : NodeObj :=
  { cls := qCls,
    values := [("question", .vStr "q3"), ("answer", .vNone), ("context", .vStrList ["abc", "def"])],
    id := none }

/-- The object and state after `insert_node` of the list-carrying node. -/
def insertRunC : NodeObj × StoreState :=
  (insertNode emptyStore qNodeC).toOption.getD (qNodeC, emptyStore)

/-! ## JSON codec lemmas -/

theorem strMk_data (s : String) : (⟨s.data⟩ : String) = s := rfl

theorem parseStrAux_escape (cs : List Char) : ∀ (acc rest : List Char),
    parseStrAux acc false (escapeChars cs ++ '"' :: rest) = some (⟨acc.reverse ++ cs⟩, rest) := by
  induction cs with
  | nil =>
    intro acc rest
    simp [escapeChars, parseStrAux]
  | cons c cs ih =>
    intro acc rest
    by_cases hc : c = '"' ∨ c = '\\'
    · rw [escapeChars, if_pos hc]
      have : ('\\' :: c :: []) ++ escapeChars cs ++ '"' :: rest
          = '\\' :: c :: (escapeChars cs ++ '"' :: rest) := by simp
      simp only [List.cons_append, List.nil_append]
      rw [show parseStrAux acc false ('\\' :: c :: (escapeChars cs ++ '"' :: rest))
            = parseStrAux (c :: acc) false (escapeChars cs ++ '"' :: rest) by simp [parseStrAux]]
      rw [ih (c :: acc) rest]
      simp
    · rw [escapeChars, if_neg hc]
      rw [not_or] at hc
      simp only [List.cons_append, List.nil_append]
      rw [show parseStrAux acc false (c :: (escapeChars cs ++ '"' :: rest))
            = parseStrAux (c :: acc) false (escapeChars cs ++ '"' :: rest) by
          simp [parseStrAux, hc.1, hc.2]]
      rw [ih (c :: acc) rest]
      simp

theorem dumpStrChars_length (x : String) : (dumpStrChars x).length = (escapeChars x.data).length + 2 := by
  simp [dumpStrChars]

theorem dumpItemsChars_length (xs : List String) : xs.length ≤ (dumpItemsChars xs).length := by
  induction xs with
  | nil => simp [dumpItemsChars]
  | cons x xs ih =>
    cases xs with
    | nil => simp [dumpItemsChars, dumpStrChars]
    | cons y ys =>
      rw [dumpItemsChars]
      simp only [List.length_append, List.length_cons] at ih ⊢
      have := dumpStrChars_length x
      omega

theorem parseItemsFuel_dumps (xs : List String) : ∀ (x : String) (tail : List Char) (fuel : Nat),
    xs.length < fuel →
    parseItemsFuel fuel (dumpItemsChars (x :: xs) ++ ']' :: tail) = some (x :: xs, tail) := by
  induction xs with
  | nil =>
    intro x tail fuel hf
    cases fuel with
    | zero => omega
    | succ f =>
      rw [dumpItemsChars, dumpStrChars]
      have harr : (('"' :: (escapeChars x.data ++ ['"'])) ++ ']' :: tail)
          = '"' :: (escapeChars x.data ++ '"' :: (']' :: tail)) := by simp
      rw [harr, parseItemsFuel, parseStrAux_escape x.data [] (']' :: tail)]
      simp [strMk_data]
  | cons y ys ih =>
    intro x tail fuel hf
    cases fuel with
    | zero => omega
    | succ f =>
      rw [show dumpItemsChars (x :: y :: ys) = dumpStrChars x ++ ',' :: ' ' :: dumpItemsChars (y :: ys)
            from rfl, dumpStrChars]
      have harr : (('"' :: (escapeChars x.data ++ ['"'])) ++ ',' :: ' ' :: dumpItemsChars (y :: ys)) ++ ']' :: tail
          = '"' :: (escapeChars x.data ++ '"' :: (',' :: ' ' :: (dumpItemsChars (y :: ys) ++ ']' :: tail))) := by
        simp
      rw [harr, parseItemsFuel, parseStrAux_escape x.data [] (',' :: ' ' :: (dumpItemsChars (y :: ys) ++ ']' :: tail))]
      simp only [List.reverse_nil, List.nil_append, strMk_data]
      rw [ih y tail f (by simp only [List.length_cons] at hf ⊢; omega)]

theorem pyLoads_pyDumps_strList (xs : List String) :
    pyLoads (pyDumps (.vStrList xs)) = some (.vStrList xs) := by
  cases xs with
  | nil => rfl
  | cons x xs' =>
    obtain ⟨r, hr⟩ : ∃ r, dumpItemsChars (x :: xs') = '"' :: r := by
      cases xs' <;> exact ⟨_, rfl⟩
    have h1 : (pyDumps (.vStrList (x :: xs'))) ≠ "null" := by
      rw [pyDumps]; intro h; have := congrArg String.data h; simp at this
    have h2 : (pyDumps (.vStrList (x :: xs'))) ≠ "true" := by
      rw [pyDumps]; intro h; have := congrArg String.data h; simp at this
    have h3 : (pyDumps (.vStrList (x :: xs'))) ≠ "false" := by
      rw [pyDumps]; intro h; have := congrArg String.data h; simp at this
    rw [pyLoads, if_neg h1, if_neg h2, if_neg h3]
    have hdata : (pyDumps (.vStrList (x :: xs'))).data = '[' :: '"' :: (r ++ [']']) := by
      rw [pyDumps]
      show '[' :: (dumpItemsChars (x :: xs') ++ [']']) = _
      rw [hr]; simp
    rw [hdata]
    have hfuel : xs'.length < ('"' :: (r ++ [']'])).length := by
      have h4 := dumpItemsChars_length (x :: xs')
      rw [hr] at h4
      simp only [List.length_cons] at h4 ⊢
      simp only [List.length_append, List.length_cons, List.length_nil]
      omega
    have hmain := parseItemsFuel_dumps xs' x [] ('"' :: (r ++ [']'])).length hfuel
    rw [hr] at hmain
    have harr2 : ('"' :: r) ++ ']' :: [] = '"' :: (r ++ [']']) := by simp
    rw [harr2] at hmain
    simp only [List.length_cons, List.length_append, List.length_nil] at hmain
    simp [hmain]

theorem hasJsonTag_append (t : String) : hasJsonTag ⟨"JSON__".data ++ t.data⟩ = true := by
  simp [hasJsonTag, List.take]

theorem stripJsonTag_append (t : String) : stripJsonTag ⟨"JSON__".data ++ t.data⟩ = t := by
  simp [stripJsonTag, List.drop]

/-- Writing a JSON-marked value and reading it back yields the original
Python value (for the list-of-strings values that validation admits). -/
theorem decodeVal_jsonEncode_strList (xs : List String) :
    decodeVal (dbToPyRaw (jsonEncode (.vStrList xs))) = .ok (.vStrList xs) := by
  rw [jsonEncode, dbToPyRaw, decodeVal]
  rw [hasJsonTag_append, stripJsonTag_append, pyLoads_pyDumps_strList]
  simp

/-- The scanner consumes at least the closing quote: the collected content
is strictly shorter than accumulator plus input. -/
theorem parseStrAux_length : ∀ (cs acc : List Char) (esc : Bool) (s : String) (r : List Char),
    parseStrAux acc esc cs = some (s, r) → s.data.length + r.length + 1 ≤ acc.length + cs.length := by
  intro cs
  induction cs with
  | nil => intro acc esc s r h; simp [parseStrAux] at h
  | cons c rest ih =>
    intro acc esc s r h
    rw [parseStrAux] at h
    by_cases he : esc
    · rw [if_pos he] at h
      have := ih (c :: acc) false s r h
      simp only [List.length_cons] at this ⊢
      omega
    · rw [if_neg he] at h
      by_cases hb : c = '\\'
      · rw [if_pos hb] at h
        have := ih acc true s r h
        simp only [List.length_cons] at this ⊢
        omega
      · rw [if_neg hb] at h
        by_cases hq : c = '"'
        · rw [if_pos hq] at h
          simp only [Option.some.injEq, Prod.mk.injEq] at h
          obtain ⟨h3, h4⟩ := h
          subst h4
          have h5 : s.data.length = acc.length := by rw [← h3]; simp
          simp only [List.length_cons]
          omega
        · rw [if_neg hq] at h
          have := ih (c :: acc) false s r h
          simp only [List.length_cons] at this ⊢
          omega

theorem pyLoads_vStr_shorter (t s2 : String) (h : pyLoads t = some (.vStr s2)) :
    s2.data.length + 2 ≤ t.data.length := by
  rw [pyLoads] at h
  split at h
  · simp at h
  · split at h
    · simp at h
    · split at h
      · simp at h
      · split at h
        · rename_i rest heq
          split at h
          · rename_i str hps
            have hl := parseStrAux_length rest [] false str [] hps
            simp only [Option.some.injEq, PyValue.vStr.injEq] at h
            subst h
            rw [heq]
            simp only [List.length_cons, List.length_nil] at hl ⊢
            omega
          · simp at h
        · simp at h
        · split at h
          · rename_i xs heq2
            simp at h
          · simp at h
        · split at h
          · simp at h
          · simp at h

/-! ## Table lookup and schema lemmas -/

theorem findNodeTable_updateFirst (ts : List NodeTable) (label : String) (f : NodeTable → NodeTable)
    (hname : ∀ t, (f t).name = t.name) :
    findNodeTable (updateNodeTableFirst ts label f) label = (findNodeTable ts label).map f := by
  induction ts with
  | nil => rfl
  | cons t rest ih =>
    rw [updateNodeTableFirst]
    by_cases h : t.name = label
    · rw [if_pos h, findNodeTable, findNodeTable, hname t, if_pos h, if_pos h]
      rfl
    · rw [if_neg h, findNodeTable, findNodeTable, if_neg h, if_neg h, ih]

theorem findNodeTable_updateFirst_other (ts : List NodeTable) (label label2 : String) (f : NodeTable → NodeTable)
    (hname : ∀ t, (f t).name = t.name) (hne : label2 ≠ label) :
    findNodeTable (updateNodeTableFirst ts label f) label2 = findNodeTable ts label2 := by
  induction ts with
  | nil => rfl
  | cons t rest ih =>
    rw [updateNodeTableFirst]
    by_cases h : t.name = label
    · rw [if_pos h, findNodeTable, findNodeTable, hname t]
      have : ¬ t.name = label2 := by rw [h]; exact fun hc => hne hc.symm
      rw [if_neg this, if_neg this]
    · rw [if_neg h, findNodeTable, findNodeTable, ih]

theorem findNodeTable_append_of_none (ts ts2 : List NodeTable) (label : String)
    (h : findNodeTable ts label = none) :
    findNodeTable (ts ++ ts2) label = findNodeTable ts2 label := by
  induction ts with
  | nil => rfl
  | cons t rest ih =>
    rw [findNodeTable] at h
    by_cases hn : t.name = label
    · rw [if_pos hn] at h; exact absurd h (by simp)
    · rw [if_neg hn] at h
      rw [List.cons_append, findNodeTable, if_neg hn, ih h]

theorem findNodeTable_append_other (ts ts2 : List NodeTable) (label : String)
    (h : ∀ t ∈ ts2, t.name ≠ label) :
    findNodeTable (ts ++ ts2) label = findNodeTable ts label := by
  induction ts with
  | nil =>
    rw [List.nil_append, findNodeTable]
    induction ts2 with
    | nil => rfl
    | cons t rest ih =>
      rw [findNodeTable, if_neg (h t (by simp))]
      exact ih (fun t2 ht2 => h t2 (by simp [ht2]))
  | cons t rest ih =>
    rw [List.cons_append, findNodeTable, findNodeTable]
    by_cases hn : t.name = label
    · rw [if_pos hn, if_pos hn]
    · rw [if_neg hn, if_neg hn, ih]

theorem findNodeTable_name (ts : List NodeTable) (label : String) (t : NodeTable)
    (h : findNodeTable ts label = some t) : t.name = label := by
  induction ts with
  | nil => simp [findNodeTable] at h
  | cons t0 rest ih =>
    rw [findNodeTable] at h
    by_cases hn : t0.name = label
    · rw [if_pos hn] at h
      injection h with h2
      rw [← h2]; exact hn
    · rw [if_neg hn] at h
      exact ih h

theorem ensuredTable_name (st : StoreState) (cls : NodeClass) :
    (ensuredTable st cls).name = cls.label := by
  rw [ensuredTable]
  cases h : findNodeTable st.nodeTables cls.label with
  | none => rfl
  | some t => exact findNodeTable_name st.nodeTables cls.label t h

theorem ensuredTable_nextId (st : StoreState) (cls : NodeClass) :
    (ensuredTable st cls).nextId = freshId st cls.label := by
  rw [ensuredTable, freshId]
  cases h : findNodeTable st.nodeTables cls.label <;> rfl

theorem ensuredTable_rows (st : StoreState) (cls : NodeClass) (t : NodeTable)
    (h : findNodeTable st.nodeTables cls.label = some t) :
    (ensuredTable st cls).rows = t.rows := by
  rw [ensuredTable, h]

theorem ensuredTable_rows_none (st : StoreState) (cls : NodeClass)
    (h : findNodeTable st.nodeTables cls.label = none) :
    (ensuredTable st cls).rows = [] := by
  rw [ensuredTable, h]

theorem findNodeTable_ensure (st : StoreState) (cls : NodeClass) :
    findNodeTable (ensureNodeTable st cls).nodeTables cls.label = some (ensuredTable st cls) := by
  rw [ensureNodeTable, ensuredTable]
  cases h : findNodeTable st.nodeTables cls.label with
  | some t =>
    simp only
    rw [findNodeTable_updateFirst st.nodeTables cls.label
        (fun t => { t with properties := ensureColumns t.properties cls.fields }) (fun _ => rfl), h]
    rfl
  | none =>
    simp only
    have hh := findNodeTable_updateFirst
        (st.nodeTables ++ [{ name := cls.label, properties := ["id"], rows := [], nextId := 0 }])
        cls.label
        (fun t => { t with properties := ensureColumns t.properties cls.fields }) (fun _ => rfl)
    rw [hh, findNodeTable_append_of_none st.nodeTables _ cls.label h, findNodeTable, if_pos rfl]
    rfl

theorem findNodeTable_ensure_other (st : StoreState) (cls : NodeClass) (label2 : String)
    (hne : label2 ≠ cls.label) :
    findNodeTable (ensureNodeTable st cls).nodeTables label2 = findNodeTable st.nodeTables label2 := by
  rw [ensureNodeTable]
  cases h : findNodeTable st.nodeTables cls.label with
  | some t =>
    simp only
    rw [findNodeTable_updateFirst_other st.nodeTables cls.label label2
        (fun t => { t with properties := ensureColumns t.properties cls.fields }) (fun _ => rfl) hne]
  | none =>
    simp only
    have hh := findNodeTable_updateFirst_other
        (st.nodeTables ++ [{ name := cls.label, properties := ["id"], rows := [], nextId := 0 }])
        cls.label label2
        (fun t => { t with properties := ensureColumns t.properties cls.fields }) (fun _ => rfl) hne
    rw [hh, findNodeTable_append_other st.nodeTables _ label2
          (by intro t2 ht2; simp at ht2; rw [ht2]; exact fun hc => hne hc.symm)]

/-! ## insert_node lemmas -/

theorem insertNode_ok (st : StoreState) (n n' : NodeObj) (st' : StoreState)
    (h : insertNode st n = .ok (n', st')) :
    n.id = none ∧ n' = { n with id := some (freshId st n.cls.label) } ∧
    ∃ params, nodeParams n.cls n.values = .ok params ∧ st' = insertedState st n params := by
  cases hid : n.id with
  | some i => rw [insertNode, hid] at h; simp at h
  | none =>
    cases hp : nodeParams n.cls n.values with
    | error e => rw [insertNode, hid] at h; simp only [hp] at h; simp at h
    | ok params =>
      rw [insertNode, hid] at h
      simp only [hp, findNodeTable_ensure, Except.ok.injEq, Prod.mk.injEq] at h
      obtain ⟨h1, h2⟩ := h
      refine ⟨rfl, ?_, params, rfl, ?_⟩
      · rw [← h1, ensuredTable_nextId]
      · rw [← h2, insertedState]

theorem insertedState_relTables (st : StoreState) (n : NodeObj) (params : List (String × DbValue)) :
    (insertedState st n params).relTables = st.relTables := rfl

theorem insertedState_frozen (st : StoreState) (n : NodeObj) (params : List (String × DbValue)) :
    (insertedState st n params).frozen = addFrozen st.frozen n.cls.label := rfl

theorem insertedState_find_self (st : StoreState) (n : NodeObj) (params : List (String × DbValue)) :
    findNodeTable (insertedState st n params).nodeTables n.cls.label =
      some { name := (ensuredTable st n.cls).name,
             properties := (ensuredTable st n.cls).properties,
             rows := (ensuredTable st n.cls).rows ++ [(freshId st n.cls.label, params)],
             nextId := freshId st n.cls.label + 1 } := by
  rw [insertedState]
  simp only
  have hh := findNodeTable_updateFirst (ensureNodeTable st n.cls).nodeTables n.cls.label
      (fun t0 => { t0 with rows := t0.rows ++ [((ensuredTable st n.cls).nextId, params)], nextId := t0.nextId + 1 })
      (fun _ => rfl)
  rw [hh, findNodeTable_ensure]
  simp only [Option.map_some']
  rw [ensuredTable_nextId]

theorem insertedState_find_other (st : StoreState) (n : NodeObj) (params : List (String × DbValue))
    (label2 : String) (hne : label2 ≠ n.cls.label) :
    findNodeTable (insertedState st n params).nodeTables label2 = findNodeTable st.nodeTables label2 := by
  rw [insertedState]
  simp only
  have hh := findNodeTable_updateFirst_other (ensureNodeTable st n.cls).nodeTables n.cls.label label2
      (fun t0 => { t0 with rows := t0.rows ++ [((ensuredTable st n.cls).nextId, params)], nextId := t0.nextId + 1 })
      (fun _ => rfl) hne
  rw [hh, findNodeTable_ensure_other st n.cls label2 hne]

theorem ensuredTable_countP (st : StoreState) (n : NodeObj) (i : Int) :
    (ensuredTable st n.cls).rows.countP (fun r => decide (r.1 = i)) = rowCount st n.cls.label i := by
  rw [rowCount]
  cases hft : findNodeTable st.nodeTables n.cls.label with
  | none => rw [ensuredTable_rows_none st n.cls hft]; rfl
  | some t => rw [ensuredTable_rows st n.cls t hft]

theorem insertedState_rowCount (st : StoreState) (n : NodeObj) (params : List (String × DbValue))
    (lab : String) (i : Int) :
    rowCount (insertedState st n params) lab i =
      rowCount st lab i + (if lab = n.cls.label ∧ i = freshId st n.cls.label then 1 else 0) := by
  by_cases hl : lab = n.cls.label
  · rw [hl, rowCount, insertedState_find_self]
    simp only [List.countP_append, List.countP_cons, List.countP_nil]
    rw [ensuredTable_countP]
    by_cases hi : i = freshId st n.cls.label
    · simp [hi]
    · have hi2 : ¬ (freshId st n.cls.label = i) := fun hc => hi hc.symm
      simp [hi, hi2]
  · rw [rowCount, insertedState_find_other st n params lab hl, rowCount,
        if_neg (fun hc => hl hc.1)]
    omega

theorem insertedState_freshId_self (st : StoreState) (n : NodeObj) (params : List (String × DbValue)) :
    freshId (insertedState st n params) n.cls.label = freshId st n.cls.label + 1 := by
  rw [freshId, insertedState_find_self]

theorem insertedState_freshId_other (st : StoreState) (n : NodeObj) (params : List (String × DbValue))
    (lab : String) (h : lab ≠ n.cls.label) :
    freshId (insertedState st n params) lab = freshId st lab := by
  rw [freshId, insertedState_find_other st n params lab h, freshId]

theorem insertedState_tableOkB (st : StoreState) (n : NodeObj) (params : List (String × DbValue))
    (lab : String) (h : tableOkB st lab = true) :
    tableOkB (insertedState st n params) lab = true := by
  by_cases hl : lab = n.cls.label
  · rw [hl] at h
    rw [hl, tableOkB, insertedState_find_self]
    simp only [List.all_append, Bool.and_eq_true, List.all_cons, List.all_nil]
    refine ⟨?_, ?_, trivial⟩
    · rw [tableOkB] at h
      cases hft : findNodeTable st.nodeTables n.cls.label with
      | none => rw [ensuredTable_rows_none st n.cls hft]; rfl
      | some t =>
        rw [ensuredTable_rows st n.cls t hft]
        rw [hft] at h
        have hfr : freshId st n.cls.label = t.nextId := by rw [freshId, hft]
        rw [List.all_eq_true] at h ⊢
        intro r hr
        have := h r hr
        simp only [decide_eq_true_eq] at this ⊢
        omega
    · simp
  · rw [tableOkB, insertedState_find_other st n params lab hl]
    rw [tableOkB] at h
    exact h

theorem checkNodeExistsByClassAndId_iff (st : StoreState) (cls : NodeClass) (i : Int) :
    checkNodeExistsByClassAndId st cls i = true ↔ 0 < rowCount st cls.label i := by
  rw [checkNodeExistsByClassAndId, rowCount]
  cases h : findNodeTable st.nodeTables cls.label with
  | none => simp
  | some t => simp [List.any_eq_true, List.countP_pos_iff]

theorem insertNode_fields (st : StoreState) (n n' : NodeObj) (st' : StoreState)
    (h : insertNode st n = .ok (n', st')) :
    n.id = none ∧ n'.cls = n.cls ∧ n'.values = n.values ∧ n'.id = some (freshId st n.cls.label) := by
  obtain ⟨h0, h1, params, hp, h2⟩ := insertNode_ok st n n' st' h
  subst h1
  exact ⟨h0, rfl, rfl, rfl⟩

theorem insertNode_relTables (st : StoreState) (n n' : NodeObj) (st' : StoreState)
    (h : insertNode st n = .ok (n', st')) : st'.relTables = st.relTables := by
  obtain ⟨_, _, params, _, h2⟩ := insertNode_ok st n n' st' h
  rw [h2, insertedState_relTables]

theorem insertNode_frozen (st : StoreState) (n n' : NodeObj) (st' : StoreState)
    (h : insertNode st n = .ok (n', st')) : st'.frozen = addFrozen st.frozen n.cls.label := by
  obtain ⟨_, _, params, _, h2⟩ := insertNode_ok st n n' st' h
  rw [h2, insertedState_frozen]

theorem insertNode_rowCount (st : StoreState) (n n' : NodeObj) (st' : StoreState)
    (h : insertNode st n = .ok (n', st')) (lab : String) (i : Int) :
    rowCount st' lab i =
      rowCount st lab i + (if lab = n.cls.label ∧ i = freshId st n.cls.label then 1 else 0) := by
  obtain ⟨_, _, params, _, h2⟩ := insertNode_ok st n n' st' h
  rw [h2, insertedState_rowCount]

theorem insertNode_freshId_self (st : StoreState) (n n' : NodeObj) (st' : StoreState)
    (h : insertNode st n = .ok (n', st')) :
    freshId st' n.cls.label = freshId st n.cls.label + 1 := by
  obtain ⟨_, _, params, _, h2⟩ := insertNode_ok st n n' st' h
  rw [h2, insertedState_freshId_self]

theorem insertNode_freshId_other (st : StoreState) (n n' : NodeObj) (st' : StoreState)
    (h : insertNode st n = .ok (n', st')) (lab : String) (hne : lab ≠ n.cls.label) :
    freshId st' lab = freshId st lab := by
  obtain ⟨_, _, params, _, h2⟩ := insertNode_ok st n n' st' h
  rw [h2, insertedState_freshId_other st n params lab hne]

theorem insertNode_tableOkB (st : StoreState) (n n' : NodeObj) (st' : StoreState)
    (h : insertNode st n = .ok (n', st')) (lab : String) (hok : tableOkB st lab = true) :
    tableOkB st' lab = true := by
  obtain ⟨_, _, params, _, h2⟩ := insertNode_ok st n n' st' h
  rw [h2]
  exact insertedState_tableOkB st n params lab hok

theorem insertNode_checkNodeExists (st : StoreState) (n n' : NodeObj) (st' : StoreState)
    (h : insertNode st n = .ok (n', st')) : checkNodeExists st' n' = true := by
  obtain ⟨h0, hcls, hvals, hid⟩ := insertNode_fields st n n' st' h
  rw [checkNodeExists, hid]
  rw [checkNodeExistsByClassAndId_iff, hcls]
  rw [insertNode_rowCount st n n' st' h n.cls.label (freshId st n.cls.label)]
  simp

theorem checkNodeExists_mono_insert (st : StoreState) (n n' : NodeObj) (st' : StoreState)
    (h : insertNode st n = .ok (n', st')) (m : NodeObj)
    (hm : checkNodeExists st m = true) : checkNodeExists st' m = true := by
  rw [checkNodeExists] at hm ⊢
  cases hmid : m.id with
  | none => rw [hmid] at hm; exact absurd hm (by simp)
  | some i =>
    rw [hmid] at hm
    rw [checkNodeExistsByClassAndId_iff] at hm ⊢
    rw [insertNode_rowCount st n n' st' h m.cls.label i]
    omega

/-! ## Relation table lemmas -/

theorem ensureRelationTable_nodeTables (st : StoreState) (a b : NodeClass) (l : String) :
    (ensureRelationTable st a b l).nodeTables = st.nodeTables := by
  rw [ensureRelationTable]
  split <;> rfl

theorem ensureRelationTable_frozen (st : StoreState) (a b : NodeClass) (l : String) :
    (ensureRelationTable st a b l).frozen = st.frozen := by
  rw [ensureRelationTable]
  split <;> rfl

theorem checkRelTableExists_ensure (st : StoreState) (a b : NodeClass) (l : String) :
    checkRelTableExists (ensureRelationTable st a b l) a.label b.label (some l) = true := by
  rw [ensureRelationTable]
  by_cases h : checkRelTableExists st a.label b.label (some l) = true
  · rw [if_pos h]; exact h
  · rw [if_neg h, checkRelTableExists]
    simp only [List.any_append]
    have : relTableMatches { name := l, src := a.label, dst := b.label, edges := [] } a.label b.label (some l) = true := by
      simp [relTableMatches]
    simp [this]

theorem ensureRelationTable_mem (st : StoreState) (a b : NodeClass) (l : String) (t : RelTable)
    (h : t ∈ (ensureRelationTable st a b l).relTables) :
    t ∈ st.relTables ∨ t = { name := l, src := a.label, dst := b.label, edges := [] } := by
  rw [ensureRelationTable] at h
  by_cases hc : checkRelTableExists st a.label b.label (some l) = true
  · rw [if_pos hc] at h; exact Or.inl h
  · rw [if_neg hc] at h
    simp only [List.mem_append, List.mem_singleton] at h
    exact h

theorem addEdgeFirst_mem (ts : List RelTable) (name src dst : String) (e : Int × Int) (t2 : RelTable)
    (h : t2 ∈ addEdgeFirst ts name src dst e) :
    t2 ∈ ts ∨ ∃ t0, t0 ∈ ts ∧ relTableMatches t0 src dst (some name) = true ∧
      t2 = { t0 with edges := t0.edges ++ [e] } := by
  induction ts with
  | nil => simp [addEdgeFirst] at h
  | cons t rest ih =>
    rw [addEdgeFirst] at h
    by_cases hm : relTableMatches t src dst (some name) = true
    · rw [if_pos hm] at h
      rcases List.mem_cons.mp h with h1 | h1
      · exact Or.inr ⟨t, by simp, hm, h1⟩
      · exact Or.inl (List.mem_cons_of_mem t h1)
    · rw [if_neg hm] at h
      rcases List.mem_cons.mp h with h1 | h1
      · exact Or.inl (by simp [h1])
      · rcases ih h1 with h2 | ⟨t0, ht0, hm0, he0⟩
        · exact Or.inl (List.mem_cons_of_mem t h2)
        · exact Or.inr ⟨t0, List.mem_cons_of_mem t ht0, hm0, he0⟩

theorem addEdgeFirst_witness (ts : List RelTable) (name src dst : String) (e : Int × Int)
    (h : ∃ t0 ∈ ts, relTableMatches t0 src dst (some name) = true) :
    ∃ t2 ∈ addEdgeFirst ts name src dst e,
      relTableMatches t2 src dst (some name) = true ∧ e ∈ t2.edges := by
  induction ts with
  | nil => simp at h
  | cons t rest ih =>
    rw [addEdgeFirst]
    by_cases hm : relTableMatches t src dst (some name) = true
    · rw [if_pos hm]
      refine ⟨{ t with edges := t.edges ++ [e] }, by simp, ?_, by simp⟩
      rw [relTableMatches] at hm ⊢
      exact hm
    · rw [if_neg hm]
      obtain ⟨t0, ht0, hm0⟩ := h
      rcases List.mem_cons.mp ht0 with h1 | h1
      · rw [h1] at hm0; exact absurd hm0 hm
      · obtain ⟨t2, ht2, hm2, he2⟩ := ih ⟨t0, h1, hm0⟩
        exact ⟨t2, List.mem_cons_of_mem t ht2, hm2, he2⟩

theorem checkNodeExists_table (st : StoreState) (m : NodeObj)
    (h : checkNodeExists st m = true) : checkNodeTableExists st m.cls.label = true := by
  cases hid : m.id with
  | none => simp only [checkNodeExists.eq_def, hid] at h; exact absurd h (by simp)
  | some i =>
    simp only [checkNodeExists.eq_def, hid, checkNodeExistsByClassAndId.eq_def] at h
    rw [checkNodeTableExists]
    cases hf : findNodeTable st.nodeTables m.cls.label with
    | none => rw [hf] at h; simp at h
    | some t => simp

theorem checkNodeExists_id (st : StoreState) (m : NodeObj)
    (h : checkNodeExists st m = true) : ∃ i, m.id = some i := by
  rw [checkNodeExists] at h
  cases hid : m.id with
  | none => rw [hid] at h; exact absurd h (by simp)
  | some i => exact ⟨i, rfl⟩

theorem createRelation_ok (st : StoreState) (f t : NodeObj) (l : String) (st' : StoreState)
    (h : createRelation st f t l = .ok st') :
    checkNodeExists st f = true ∧ checkNodeExists st t = true ∧
    ∃ fid tid, f.id = some fid ∧ t.id = some tid ∧
      st' = { ensureRelationTable st f.cls t.cls l with
              relTables := addEdgeFirst (ensureRelationTable st f.cls t.cls l).relTables
                l f.cls.label t.cls.label (fid, tid) } := by
  rw [createRelation] at h
  by_cases hf : checkNodeExists st f = false
  · rw [if_pos hf] at h; exact absurd h (by simp)
  · rw [if_neg hf] at h
    by_cases ht : checkNodeExists st t = false
    · rw [if_pos ht] at h; exact absurd h (by simp)
    · rw [if_neg ht] at h
      refine ⟨by simpa using hf, by simpa using ht, ?_⟩
      cases hfid : f.id with
      | none => rw [hfid] at h; exact absurd h (by simp)
      | some fid =>
        cases htid : t.id with
        | none => rw [hfid, htid] at h; exact absurd h (by simp)
        | some tid =>
          rw [hfid, htid] at h
          simp only [Except.ok.injEq] at h
          exact ⟨fid, tid, rfl, rfl, h.symm⟩

theorem createRelation_nodeTables (st : StoreState) (f t : NodeObj) (l : String) (st' : StoreState)
    (h : createRelation st f t l = .ok st') : st'.nodeTables = st.nodeTables := by
  obtain ⟨_, _, fid, tid, _, _, hs⟩ := createRelation_ok st f t l st' h
  rw [hs]
  show (ensureRelationTable st f.cls t.cls l).nodeTables = st.nodeTables
  exact ensureRelationTable_nodeTables st f.cls t.cls l

theorem createRelation_frozen (st : StoreState) (f t : NodeObj) (l : String) (st' : StoreState)
    (h : createRelation st f t l = .ok st') : st'.frozen = st.frozen := by
  obtain ⟨_, _, fid, tid, _, _, hs⟩ := createRelation_ok st f t l st' h
  rw [hs]
  show (ensureRelationTable st f.cls t.cls l).frozen = st.frozen
  exact ensureRelationTable_frozen st f.cls t.cls l

theorem checkNodeExists_eq_of_nodeTables (st st' : StoreState) (m : NodeObj)
    (h : st'.nodeTables = st.nodeTables) : checkNodeExists st' m = checkNodeExists st m := by
  cases hmid : m.id with
  | none => simp only [checkNodeExists.eq_def, hmid]
  | some i =>
    simp only [checkNodeExists.eq_def, hmid, checkNodeExistsByClassAndId.eq_def, h]

theorem checkRelTableExists_any (st : StoreState) (src dst : String) (lbl : Option String)
    (h : checkRelTableExists st src dst lbl = true) :
    ∃ t0 ∈ st.relTables, relTableMatches t0 src dst lbl = true := by
  rw [checkRelTableExists, List.any_eq_true] at h
  exact h

theorem createRelation_check (st : StoreState) (f t : NodeObj) (l : String) (st' : StoreState)
    (h : createRelation st f t l = .ok st') :
    checkRelationExists st' f t (some l) = true := by
  obtain ⟨hf, ht, fid, tid, hfid, htid, hs⟩ := createRelation_ok st f t l st' h
  have hnt : st'.nodeTables = st.nodeTables := createRelation_nodeTables st f t l st' h
  have htf : checkNodeTableExists st' f.cls.label = true := by
    rw [checkNodeTableExists, hnt]
    exact checkNodeExists_table st f hf
  have htt : checkNodeTableExists st' t.cls.label = true := by
    rw [checkNodeTableExists, hnt]
    exact checkNodeExists_table st t ht
  have hwit := addEdgeFirst_witness (ensureRelationTable st f.cls t.cls l).relTables
      l f.cls.label t.cls.label (fid, tid)
      (checkRelTableExists_any _ _ _ _ (checkRelTableExists_ensure st f.cls t.cls l))
  obtain ⟨t2, ht2, hm2, he2⟩ := hwit
  have hrels : st'.relTables = addEdgeFirst (ensureRelationTable st f.cls t.cls l).relTables
      l f.cls.label t.cls.label (fid, tid) := by rw [hs]
  have hrt : checkRelTableExists st' f.cls.label t.cls.label (some l) = true := by
    rw [checkRelTableExists, List.any_eq_true]
    exact ⟨t2, by rw [hrels]; exact ht2, hm2⟩
  rw [checkRelationExists, hfid, htid]
  simp only [htf, htt, hrt, Bool.and_self, if_true]
  rw [List.any_eq_true]
  refine ⟨t2, by rw [hrels]; exact ht2, ?_⟩
  rw [Bool.and_eq_true]
  exact ⟨hm2, by rw [List.any_eq_true]; exact ⟨(fid, tid), he2, by simp⟩⟩

theorem matchCount_eq_of_relTables (st st' : StoreState) (src dst lbl : String) (fid tid : Int)
    (h : st'.relTables = st.relTables) :
    matchCount st' src dst lbl fid tid = matchCount st src dst lbl fid tid := by
  rw [matchCount, matchCount, h]

theorem totalEdges_eq_of_relTables (st st' : StoreState) (src dst : String) (lbl : Option String)
    (h : st'.relTables = st.relTables) :
    totalEdges st' src dst lbl = totalEdges st src dst lbl := by
  rw [totalEdges, totalEdges, h]

theorem matchCount_ensureRelationTable (st : StoreState) (a b : NodeClass) (l : String)
    (src dst lbl : String) (fid tid : Int) :
    matchCount (ensureRelationTable st a b l) src dst lbl fid tid = matchCount st src dst lbl fid tid := by
  rw [ensureRelationTable]
  by_cases hc : checkRelTableExists st a.label b.label (some l) = true
  · rw [if_pos hc]
  · rw [if_neg hc, matchCount, matchCount]
    simp only [List.filter_append, List.map_append, List.sum_append]
    cases hb : relTableMatches { name := l, src := a.label, dst := b.label, edges := [] } src dst (some lbl) <;>
      simp [List.filter_cons, hb]

theorem totalEdges_ensureRelationTable (st : StoreState) (a b : NodeClass) (l : String)
    (src dst : String) (lbl : Option String) :
    totalEdges (ensureRelationTable st a b l) src dst lbl = totalEdges st src dst lbl := by
  rw [ensureRelationTable]
  by_cases hc : checkRelTableExists st a.label b.label (some l) = true
  · rw [if_pos hc]
  · rw [if_neg hc, totalEdges, totalEdges]
    simp only [List.filter_append, List.map_append, List.sum_append]
    cases hb : relTableMatches { name := l, src := a.label, dst := b.label, edges := [] } src dst lbl <;>
      simp [List.filter_cons, hb]

theorem countSum_addEdgeFirst (ts : List RelTable) (name src dst : String) (fid tid : Int)
    (h : ∃ t0 ∈ ts, relTableMatches t0 src dst (some name) = true) :
    (((addEdgeFirst ts name src dst (fid, tid)).filter
        (fun t => relTableMatches t src dst (some name))).map
      (fun t => t.edges.countP (fun e => decide (e = (fid, tid))))).sum =
    ((ts.filter (fun t => relTableMatches t src dst (some name))).map
      (fun t => t.edges.countP (fun e => decide (e = (fid, tid))))).sum + 1 := by
  induction ts with
  | nil => simp at h
  | cons t rest ih =>
    rw [addEdgeFirst]
    by_cases hm : relTableMatches t src dst (some name) = true
    · rw [if_pos hm]
      have hm2 : relTableMatches { t with edges := t.edges ++ [(fid, tid)] } src dst (some name) = true := by
        rw [relTableMatches] at hm ⊢
        exact hm
      rw [List.filter_cons, List.filter_cons, if_pos hm2, if_pos hm]
      simp only [List.map_cons, List.sum_cons, List.countP_append, List.countP_cons, List.countP_nil]
      simp
      omega
    · rw [if_neg hm]
      rw [List.filter_cons, List.filter_cons, if_neg hm, if_neg hm]
      obtain ⟨t0, ht0, hm0⟩ := h
      rcases List.mem_cons.mp ht0 with h1 | h1
      · rw [h1] at hm0; exact absurd hm0 hm
      · exact ih ⟨t0, h1, hm0⟩

theorem createRelation_matchCount (st : StoreState) (f t : NodeObj) (l : String) (st' : StoreState)
    (h : createRelation st f t l = .ok st') (fid tid : Int)
    (hfid : f.id = some fid) (htid : t.id = some tid) :
    matchCount st' f.cls.label t.cls.label l fid tid =
      matchCount st f.cls.label t.cls.label l fid tid + 1 := by
  obtain ⟨_, _, fid2, tid2, hfid2, htid2, hs⟩ := createRelation_ok st f t l st' h
  rw [hfid] at hfid2
  rw [htid] at htid2
  injection hfid2 with hfe
  injection htid2 with hte
  subst hfe
  subst hte
  have hrels : st'.relTables = addEdgeFirst (ensureRelationTable st f.cls t.cls l).relTables
      l f.cls.label t.cls.label (fid, tid) := by rw [hs]
  rw [matchCount, hrels]
  have hwit := checkRelTableExists_any _ _ _ _ (checkRelTableExists_ensure st f.cls t.cls l)
  rw [countSum_addEdgeFirst _ _ _ _ _ _ hwit]
  have := matchCount_ensureRelationTable st f.cls t.cls l f.cls.label t.cls.label l fid tid
  rw [matchCount] at this
  rw [this]

theorem matchCount_pos_of_mem (st : StoreState) (src dst lbl : String) (fid tid : Int)
    (t0 : RelTable) (ht0 : t0 ∈ st.relTables)
    (hm : relTableMatches t0 src dst (some lbl) = true)
    (he : (fid, tid) ∈ t0.edges) :
    0 < matchCount st src dst lbl fid tid := by
  rw [matchCount]
  have hmem : t0 ∈ st.relTables.filter (fun t => relTableMatches t src dst (some lbl)) :=
    List.mem_filter.mpr ⟨ht0, hm⟩
  have hcp : 0 < t0.edges.countP (fun e => decide (e = (fid, tid))) := by
    rw [List.countP_pos_iff]
    exact ⟨(fid, tid), he, by simp⟩
  have hmm : t0.edges.countP (fun e => decide (e = (fid, tid))) ∈
      (st.relTables.filter (fun t => relTableMatches t src dst (some lbl))).map
        (fun t => t.edges.countP (fun e => decide (e = (fid, tid)))) :=
    List.mem_map_of_mem _ hmem
  have := List.single_le_sum (fun x _ => Nat.zero_le x) _ hmm
  omega

theorem matchCount_le_totalEdges (st : StoreState) (src dst lbl : String) (fid tid : Int) :
    matchCount st src dst lbl fid tid ≤ totalEdges st src dst (some lbl) := by
  rw [matchCount, totalEdges]
  induction st.relTables.filter (fun t => relTableMatches t src dst (some lbl)) with
  | nil => simp
  | cons t rest ih =>
    simp only [List.map_cons, List.sum_cons]
    have := List.countP_le_length (p := fun e => decide (e = (fid, tid))) (l := t.edges)
    omega

theorem checkRelationExists_inv (st : StoreState) (a b : NodeObj) (lbl : Option String)
    (h : checkRelationExists st a b lbl = true) :
    ∃ fid tid, a.id = some fid ∧ b.id = some tid ∧
      ∃ t0 ∈ st.relTables, relTableMatches t0 a.cls.label b.cls.label lbl = true ∧
        (fid, tid) ∈ t0.edges := by
  cases hfid : a.id with
  | none => rw [checkRelationExists.eq_def, hfid] at h; simp at h
  | some fid =>
    cases htid : b.id with
    | none => rw [checkRelationExists.eq_def, hfid, htid] at h; simp at h
    | some tid =>
      rw [checkRelationExists.eq_def, hfid, htid] at h
      simp only at h
      refine ⟨fid, tid, rfl, rfl, ?_⟩
      by_cases hc : (checkNodeTableExists st a.cls.label && checkNodeTableExists st b.cls.label
          && checkRelTableExists st a.cls.label b.cls.label lbl) = true
      · rw [if_pos hc, List.any_eq_true] at h
        obtain ⟨t0, ht0, hb⟩ := h
        rw [Bool.and_eq_true] at hb
        obtain ⟨hm, he⟩ := hb
        rw [List.any_eq_true] at he
        obtain ⟨e, hee, heq⟩ := he
        simp only [decide_eq_true_eq] at heq
        exact ⟨t0, ht0, hm, heq ▸ hee⟩
      · rw [if_neg hc] at h
        simp at h

theorem totalEdges_zero_edges (st : StoreState) (src dst : String) (lbl : Option String)
    (h : totalEdges st src dst lbl = 0) :
    ∀ t ∈ st.relTables, relTableMatches t src dst lbl = true → t.edges = [] := by
  intro t ht hm
  rw [totalEdges, List.sum_eq_zero_iff] at h
  have : t.edges.length ∈ (st.relTables.filter (fun t => relTableMatches t src dst lbl)).map
      (fun t => t.edges.length) :=
    List.mem_map_of_mem _ (List.mem_filter.mpr ⟨ht, hm⟩)
  have h0 := h _ this
  exact List.eq_nil_of_length_eq_zero h0

/-! ## upsert_triplet lemmas -/

theorem upsertTriplet_fresh_ok (st : StoreState) (A B : NodeObj) (l : String)
    (A1 B1 : NodeObj) (st1 : StoreState)
    (hA : A.id = none) (hB : B.id = none)
    (h : upsertTriplet st A B l = .ok (A1, B1, st1)) :
    ∃ stA stB, insertNode st A = .ok (A1, stA) ∧ insertNode stA B = .ok (B1, stB) ∧
      ((checkRelationExists stB A1 B1 (some l) = true ∧ st1 = stB) ∨
       (checkRelationExists stB A1 B1 (some l) = false ∧ createRelation stB A1 B1 l = .ok st1)) := by
  have hfa : checkNodeExists st A = false := by rw [checkNodeExists.eq_def, hA]
  rw [upsertTriplet] at h
  rw [hfa] at h
  simp only [Bool.false_eq_true, if_false] at h
  cases hia : insertNode st A with
  | error e => rw [hia] at h; simp at h
  | ok p =>
    obtain ⟨A1', stA⟩ := p
    rw [hia] at h
    simp only at h
    have hfb : checkNodeExists stA B = false := by rw [checkNodeExists.eq_def, hB]
    rw [hfb] at h
    simp only [Bool.false_eq_true, if_false] at h
    cases hib : insertNode stA B with
    | error e => rw [hib] at h; simp at h
    | ok q =>
      obtain ⟨B1', stB⟩ := q
      rw [hib] at h
      simp only at h
      by_cases hrel : checkRelationExists stB A1' B1' (some l) = true
      · rw [hrel] at h
        simp only [if_true, Except.ok.injEq, Prod.mk.injEq] at h
        obtain ⟨h1, h2, h3⟩ := h
        subst h1; subst h2; subst h3
        exact ⟨stA, stB, rfl, hib, Or.inl ⟨hrel, rfl⟩⟩
      · rw [Bool.not_eq_true] at hrel
        rw [hrel] at h
        simp only [Bool.false_eq_true, if_false] at h
        cases hcr : createRelation stB A1' B1' l with
        | error e => rw [hcr] at h; simp at h
        | ok st3 =>
          rw [hcr] at h
          simp only [Except.ok.injEq, Prod.mk.injEq] at h
          obtain ⟨h1, h2, h3⟩ := h
          subst h1; subst h2; subst h3
          exact ⟨stA, stB, rfl, hib, Or.inr ⟨hrel, hcr⟩⟩

theorem upsertTriplet_second_noop (st1 : StoreState) (A1 B1 : NodeObj) (l : String)
    (hA : checkNodeExists st1 A1 = true) (hB : checkNodeExists st1 B1 = true)
    (hR : checkRelationExists st1 A1 B1 (some l) = true) :
    upsertTriplet st1 A1 B1 l = .ok (A1, B1, st1) := by
  rw [upsertTriplet, hA]
  simp only [if_true]
  rw [hB]
  simp only [if_true]
  rw [hR]
  simp only [if_true]

theorem rowCount_eq_of_nodeTables (st st' : StoreState) (lab : String) (i : Int)
    (h : st'.nodeTables = st.nodeTables) : rowCount st' lab i = rowCount st lab i := by
  rw [rowCount, rowCount, h]

theorem rowCount_freshId_zero (st : StoreState) (lab : String)
    (h : tableOkB st lab = true) : rowCount st lab (freshId st lab) = 0 := by
  rw [rowCount, freshId]
  cases hf : findNodeTable st.nodeTables lab with
  | none => rfl
  | some t =>
    rw [tableOkB, hf] at h
    rw [List.countP_eq_zero]
    intro r hr
    rw [List.all_eq_true] at h
    have := h r hr
    simp only [decide_eq_true_eq] at this ⊢
    omega

/-- C1: `upsert_triplet` is idempotent.  Starting from transient nodes `A`,
`B` (with SERIAL-consistent tables and no pre-existing relation row in the
`(label, A-label, B-label)` tables), a successful `upsert_triplet` leaves
exactly one matching relation row and exactly one row for each node, and a
second call with the same arguments performs no inserts and no relation
creation: it returns the untouched state and objects. -/
theorem upsert_triplet_idempotent (st : StoreState) (A B : NodeObj) (l : String)
    (A1 B1 : NodeObj) (st1 : StoreState)
    (hA : A.id = none) (hB : B.id = none)
    (hokA : tableOkB st A.cls.label = true) (hokB : tableOkB st B.cls.label = true)
    (h0 : totalEdges st A.cls.label B.cls.label (some l) = 0)
    (h1 : upsertTriplet st A B l = .ok (A1, B1, st1)) :
    upsertTriplet st1 A1 B1 l = .ok (A1, B1, st1) ∧
    matchCount st1 A.cls.label B.cls.label l (A1.id.getD 0) (B1.id.getD 0) = 1 ∧
    rowCount st1 A.cls.label (A1.id.getD 0) = 1 ∧
    rowCount st1 B.cls.label (B1.id.getD 0) = 1 := by
  obtain ⟨stA, stB, hia, hib, hbranch⟩ := upsertTriplet_fresh_ok st A B l A1 B1 st1 hA hB h1
  obtain ⟨-, hclsA, -, hidA⟩ := insertNode_fields st A A1 stA hia
  obtain ⟨-, hclsB, -, hidB⟩ := insertNode_fields stA B B1 stB hib
  have hrelA : stA.relTables = st.relTables := insertNode_relTables st A A1 stA hia
  have hrelB : stB.relTables = stA.relTables := insertNode_relTables stA B B1 stB hib
  have htotB : totalEdges stB A.cls.label B.cls.label (some l) = 0 := by
    rw [totalEdges_eq_of_relTables stA stB _ _ _ hrelB,
        totalEdges_eq_of_relTables st stA _ _ _ hrelA]
    exact h0
  have haid : A1.id.getD 0 = freshId st A.cls.label := by rw [hidA]; rfl
  have hbid : B1.id.getD 0 = freshId stA B.cls.label := by rw [hidB]; rfl
  rcases hbranch with ⟨hrel, hst⟩ | ⟨hrelF, hcr⟩
  · exfalso
    obtain ⟨fid, tid, hfid, htid, t0, ht0, hm0, he0⟩ := checkRelationExists_inv stB A1 B1 (some l) hrel
    have hpos := matchCount_pos_of_mem stB A1.cls.label B1.cls.label l fid tid t0 ht0 hm0 he0
    rw [hclsA, hclsB] at hpos
    have hle := matchCount_le_totalEdges stB A.cls.label B.cls.label l fid tid
    omega
  · -- relation had to be created
    have hcnt0 : matchCount stB A.cls.label B.cls.label l (A1.id.getD 0) (B1.id.getD 0) = 0 := by
      have hle := matchCount_le_totalEdges stB A.cls.label B.cls.label l (A1.id.getD 0) (B1.id.getD 0)
      omega
    have hcnt : matchCount st1 A.cls.label B.cls.label l (A1.id.getD 0) (B1.id.getD 0) = 1 := by
      have := createRelation_matchCount stB A1 B1 l st1 hcr (A1.id.getD 0) (B1.id.getD 0)
        (by rw [hidA]; rfl) (by rw [hidB]; rfl)
      rw [hclsA, hclsB] at this
      rw [this, hcnt0]
    have hnt1 : st1.nodeTables = stB.nodeTables := createRelation_nodeTables stB A1 B1 l st1 hcr
    have hrowA : rowCount st1 A.cls.label (A1.id.getD 0) = 1 := by
      rw [rowCount_eq_of_nodeTables stB st1 _ _ hnt1, haid]
      rw [insertNode_rowCount stA B B1 stB hib A.cls.label (freshId st A.cls.label)]
      rw [insertNode_rowCount st A A1 stA hia A.cls.label (freshId st A.cls.label)]
      rw [rowCount_freshId_zero st A.cls.label hokA]
      rw [if_pos ⟨rfl, rfl⟩]
      have hcond : ¬ (A.cls.label = B.cls.label ∧ freshId st A.cls.label = freshId stA B.cls.label) := by
        intro ⟨hl, hfr⟩
        rw [← hl] at hfr
        rw [insertNode_freshId_self st A A1 stA hia] at hfr
        omega
      rw [if_neg hcond]
    have hrowB : rowCount st1 B.cls.label (B1.id.getD 0) = 1 := by
      rw [rowCount_eq_of_nodeTables stB st1 _ _ hnt1, hbid]
      rw [insertNode_rowCount stA B B1 stB hib B.cls.label (freshId stA B.cls.label)]
      rw [if_pos ⟨rfl, rfl⟩]
      have hokB2 : tableOkB stA B.cls.label = true := insertNode_tableOkB st A A1 stA hia B.cls.label hokB
      rw [rowCount_freshId_zero stA B.cls.label hokB2]
    have hA1 : checkNodeExists st1 A1 = true := by
      rw [checkNodeExists_eq_of_nodeTables stB st1 A1 hnt1]
      exact checkNodeExists_mono_insert stA B B1 stB hib A1
        (insertNode_checkNodeExists st A A1 stA hia)
    have hB1 : checkNodeExists st1 B1 = true := by
      rw [checkNodeExists_eq_of_nodeTables stB st1 B1 hnt1]
      exact insertNode_checkNodeExists stA B B1 stB hib
    have hR1 : checkRelationExists st1 A1 B1 (some l) = true :=
      createRelation_check stB A1 B1 l st1 hcr
    exact ⟨upsertTriplet_second_noop st1 A1 B1 l hA1 hB1 hR1, hcnt, hrowA, hrowB⟩

theorem upsert_triplet_idempotent_witness :
    upsertTriplet upsertRun.2.2 upsertRun.1 upsertRun.2.1 "p" =
      .ok (upsertRun.1, upsertRun.2.1, upsertRun.2.2) ∧
    matchCount upsertRun.2.2 qNodeA.cls.label qNodeB.cls.label "p"
      (upsertRun.1.id.getD 0) (upsertRun.2.1.id.getD 0) = 1 ∧
    rowCount upsertRun.2.2 qNodeA.cls.label (upsertRun.1.id.getD 0) = 1 ∧
    rowCount upsertRun.2.2 qNodeB.cls.label (upsertRun.2.1.id.getD 0) = 1 :=
  upsert_triplet_idempotent emptyStore qNodeA qNodeB "p"
    upsertRun.1 upsertRun.2.1 upsertRun.2.2 rfl rfl (by decide) (by decide) (by decide) (by decide)

/-- C3: after a successful `insert_node(N)`, the node carries the generated
SERIAL id, `check_node_exists(N)` holds, and re-inserting the now-persisted
object fails its id-unset assertion. -/
theorem insert_node_contract (st : StoreState) (N N' : NodeObj) (st' : StoreState)
    (h : insertNode st N = .ok (N', st')) :
    N.id = none ∧ N'.id = some (freshId st N.cls.label) ∧
    checkNodeExists st' N' = true ∧ (insertNode st' N').toOption = none := by
  obtain ⟨h0, hcls, hvals, hid⟩ := insertNode_fields st N N' st' h
  refine ⟨h0, hid, insertNode_checkNodeExists st N N' st' h, ?_⟩
  rw [insertNode.eq_def, hid]
  rfl

theorem insert_node_contract_witness :
    qNodeA.id = none ∧ insertRun.1.id = some (freshId emptyStore qNodeA.cls.label) ∧
    checkNodeExists insertRun.2 insertRun.1 = true ∧
    (insertNode insertRun.2 insertRun.1).toOption = none :=
  insert_node_contract emptyStore qNodeA insertRun.1 insertRun.2 (by decide)

theorem relTableMatches_true (t : RelTable) (src dst : String) (lbl : Option String)
    (h : relTableMatches t src dst lbl = true) :
    t.src = src ∧ t.dst = dst ∧ ∀ l0, lbl = some l0 → t.name = l0 := by
  rw [relTableMatches.eq_def] at h
  cases lbl with
  | none =>
    simp only [Bool.true_and, Bool.and_eq_true, decide_eq_true_eq] at h
    exact ⟨h.1, h.2, by simp⟩
  | some l0 =>
    simp only [Bool.and_eq_true, decide_eq_true_eq] at h
    exact ⟨h.1.2, h.2, fun l1 hl => by injection hl with hl2; rw [← hl2]; exact h.1.1⟩

/-- C6: after `upsert_triplet(A, B, l)` on transient nodes (with no
pre-existing edge in any (B-label, A-label) relation table), the forward
labeled relation exists while the reversed unlabeled query finds nothing:
direction and label are both significant. -/
theorem relation_direction_significant (st : StoreState) (A B : NodeObj) (l : String)
    (A1 B1 : NodeObj) (st1 : StoreState)
    (hA : A.id = none) (hB : B.id = none)
    (hrev : totalEdges st B.cls.label A.cls.label none = 0)
    (h1 : upsertTriplet st A B l = .ok (A1, B1, st1)) :
    checkRelationExists st1 A1 B1 (some l) = true ∧
    checkRelationExists st1 B1 A1 none = false := by
  obtain ⟨stA, stB, hia, hib, hbranch⟩ := upsertTriplet_fresh_ok st A B l A1 B1 st1 hA hB h1
  obtain ⟨-, hclsA, -, hidA⟩ := insertNode_fields st A A1 stA hia
  obtain ⟨-, hclsB, -, hidB⟩ := insertNode_fields stA B B1 stB hib
  have hrelA : stA.relTables = st.relTables := insertNode_relTables st A A1 stA hia
  have hrelB : stB.relTables = st.relTables := by
    rw [insertNode_relTables stA B B1 stB hib, hrelA]
  have hfwd : checkRelationExists st1 A1 B1 (some l) = true := by
    rcases hbranch with ⟨hrel, hst⟩ | ⟨hrelF, hcr⟩
    · rw [hst]; exact hrel
    · exact createRelation_check stB A1 B1 l st1 hcr
  refine ⟨hfwd, ?_⟩
  by_contra hcon
  rw [Bool.not_eq_false] at hcon
  obtain ⟨bid, aid, hbid, haid, t0, ht0, hm0, he0⟩ := checkRelationExists_inv st1 B1 A1 none hcon
  rw [hidB] at hbid
  injection hbid with hbid2
  rw [hidA] at haid
  injection haid with haid2
  obtain ⟨hsrc0, hdst0, -⟩ := relTableMatches_true t0 B1.cls.label A1.cls.label none hm0
  rw [hclsB] at hsrc0
  rw [hclsA] at hdst0
  have hfreshB : freshId stA A.cls.label = freshId st A.cls.label + 1 :=
    insertNode_freshId_self st A A1 stA hia
  have hzero : ∀ t2, t2 ∈ st.relTables → relTableMatches t2 B.cls.label A.cls.label none = true →
      t2.edges = [] := totalEdges_zero_edges st B.cls.label A.cls.label none hrev
  have hmem0 : ∀ t2, t2 ∈ st.relTables → t2.src = B.cls.label → t2.dst = A.cls.label →
      t2.edges = [] := by
    intro t2 ht2 hs hd
    exact hzero t2 ht2 (by rw [relTableMatches]; simp [hs, hd])
  rcases hbranch with ⟨hrel, hst⟩ | ⟨hrelF, hcr⟩
  · rw [hst, hrelB] at ht0
    have := hmem0 t0 ht0 hsrc0 hdst0
    rw [this] at he0
    simp at he0
  · obtain ⟨-, -, fid, tid, hfid, htid, hs⟩ := createRelation_ok stB A1 B1 l st1 hcr
    rw [hidA] at hfid
    injection hfid with hfid2
    rw [hidB] at htid
    injection htid with htid2
    have hrels1 : st1.relTables = addEdgeFirst (ensureRelationTable stB A1.cls B1.cls l).relTables
        l A1.cls.label B1.cls.label (fid, tid) := by rw [hs]
    rw [hrels1] at ht0
    rcases addEdgeFirst_mem _ _ _ _ _ _ ht0 with hin | ⟨t2, ht2, hm2, he2⟩
    · rcases ensureRelationTable_mem stB A1.cls B1.cls l t0 hin with hin2 | hnew
      · rw [hrelB] at hin2
        have := hmem0 t0 hin2 hsrc0 hdst0
        rw [this] at he0
        simp at he0
      · rw [hnew] at he0
        simp at he0
    · obtain ⟨hsrc2, hdst2, hname2⟩ := relTableMatches_true t2 A1.cls.label B1.cls.label (some l) hm2
      rw [hclsA] at hsrc2
      rw [hclsB] at hdst2
      have hsame : B.cls.label = A.cls.label := by
        rw [he2] at hsrc0
        rw [← hsrc2, hsrc0]
      have ht0edges : t0.edges = t2.edges ++ [(fid, tid)] := by rw [he2]
      have ht2nil : t2.edges = [] := by
        rcases ensureRelationTable_mem stB A1.cls B1.cls l t2 ht2 with hin2 | hnew
        · rw [hrelB] at hin2
          exact hmem0 t2 hin2 (by rw [hsrc2, hsame]) (by rw [hdst2, ← hsame])
        · rw [hnew]
      rw [ht0edges, ht2nil] at he0
      simp only [List.nil_append, List.mem_singleton, Prod.mk.injEq] at he0
      obtain ⟨hb, ha⟩ := he0
      rw [hsame, hfreshB] at hbid2
      omega

theorem relation_direction_significant_witness :
    checkRelationExists upsertRun.2.2 upsertRun.1 upsertRun.2.1 (some "p") = true ∧
    checkRelationExists upsertRun.2.2 upsertRun.2.1 upsertRun.1 none = false :=
  relation_direction_significant emptyStore qNodeA qNodeB "p"
    upsertRun.1 upsertRun.2.1 upsertRun.2.2 rfl rfl (by decide) (by decide)

/-! ## delete_node lemmas -/

theorem deleteNode_ok (st : StoreState) (n n' : NodeObj) (st' : StoreState)
    (h : deleteNode st n = .ok (n', st')) :
    checkNodeExists st n = true ∧ ∃ nid, n.id = some nid ∧
    n' = { n with id := none } ∧
    st' = { nodeTables := updateNodeTableFirst st.nodeTables n.cls.label
              (fun t => { t with rows := t.rows.filter (fun r => !(decide (r.1 = nid))) }),
            relTables := if st.relTables.isEmpty then st.relTables
              else deleteEdgesFor st.relTables n.cls.label nid,
            frozen := removeFrozen st.frozen n.cls.label } := by
  rw [deleteNode] at h
  by_cases hex : checkNodeExists st n = false
  · rw [if_pos hex] at h; simp at h
  · rw [if_neg hex] at h
    refine ⟨by simpa using hex, ?_⟩
    cases hid : n.id with
    | none => rw [hid] at h; simp at h
    | some nid =>
      rw [hid] at h
      simp only [Except.ok.injEq, Prod.mk.injEq] at h
      exact ⟨nid, rfl, h.1.symm, h.2.symm⟩

theorem deleteEdgesFor_spec (ts : List RelTable) (label : String) (nid : Int) :
    ∀ t ∈ deleteEdgesFor ts label nid, ∀ e ∈ t.edges,
      (t.src = label → ¬ e.1 = nid) ∧ (t.dst = label → ¬ e.2 = nid) := by
  intro t ht e he
  rw [deleteEdgesFor] at ht
  obtain ⟨t0, ht0, hteq⟩ := List.mem_map.mp ht
  subst hteq
  simp only at he ⊢
  constructor
  · intro hsrc
    have he1 : e ∈ (if t0.src = label then t0.edges.filter (fun e => !(decide (e.1 = nid)))
        else t0.edges) := by
      by_cases hd : t0.dst = label
      · rw [if_pos hd] at he
        exact (List.mem_filter.mp he).1
      · rw [if_neg hd] at he
        exact he
    rw [if_pos hsrc] at he1
    have := (List.mem_filter.mp he1).2
    simp only [Bool.not_eq_eq_eq_not, Bool.not_true, decide_eq_false_iff_not] at this
    exact this
  · intro hdst
    by_cases hd : t0.dst = label
    · rw [if_pos hd] at he
      have := (List.mem_filter.mp he).2
      simp only [Bool.not_eq_eq_eq_not, Bool.not_true, decide_eq_false_iff_not] at this
      exact this
    · exact absurd hdst hd

theorem getNode_none_of_not_exists (st : StoreState) (cls : NodeClass) (i : Int)
    (h : checkNodeExistsByClassAndId st cls i = false) :
    getNodeByClassAndId st cls i = .ok none := by
  cases hf : findNodeTable st.nodeTables cls.label with
  | none => simp only [getNodeByClassAndId.eq_def, hf]
  | some t =>
    cases hrow : t.rows.find? (fun r => decide (r.1 = i)) with
    | none => simp only [getNodeByClassAndId.eq_def, hf, hrow]
    | some p =>
      exfalso
      have hp := List.find?_some hrow
      have hm := List.mem_of_find?_eq_some hrow
      have hany : t.rows.any (fun r => decide (r.1 = i)) = true :=
        List.any_eq_true.mpr ⟨p, hm, hp⟩
      simp only [checkNodeExistsByClassAndId.eq_def, hf, hany] at h
      exact absurd h (by simp)

/-- C4: after a successful `delete_node(N)`: the object's identity is
cleared (transient again), `check_node_exists` is false, every edge incident
to the node's id in either direction is gone from the relation tables, and a
lookup by the former id returns `None`; and `delete_node` on any node that
does not currently exist fails its assertion. -/
theorem delete_node_contract (st : StoreState) (n n' : NodeObj) (st' : StoreState) (nid : Int)
    (h : deleteNode st n = .ok (n', st')) (hid : n.id = some nid)
    (st2 : StoreState) (M : NodeObj) (hne : checkNodeExists st2 M = false) :
    n'.id = none ∧
    checkNodeExists st' n' = false ∧
    getNodeByClassAndId st' n.cls nid = .ok none ∧
    (deleteNode st2 M).toOption = none ∧
    (∀ t ∈ st'.relTables, ∀ e ∈ t.edges,
      (t.src = n.cls.label → ¬ e.1 = nid) ∧ (t.dst = n.cls.label → ¬ e.2 = nid)) := by
  obtain ⟨hex, nid2, hid2, hn', hst'⟩ := deleteNode_ok st n n' st' h
  rw [hid] at hid2
  injection hid2 with hid3
  subst hid3
  have hfail : (deleteNode st2 M).toOption = none := by
    rw [deleteNode, if_pos hne]
    rfl
  have hexid : checkNodeExistsByClassAndId st n.cls nid = true := by
    rw [checkNodeExists.eq_def, hid] at hex
    exact hex
  refine ⟨by rw [hn'], by rw [hn']; rfl, ?_, hfail, ?_⟩
  · apply getNode_none_of_not_exists
    cases hft : findNodeTable st.nodeTables n.cls.label with
    | none => rw [checkNodeExistsByClassAndId.eq_def, hft] at hexid; simp at hexid
    | some t =>
      have hfind : findNodeTable st'.nodeTables n.cls.label =
          some { t with rows := t.rows.filter (fun r => !(decide (r.1 = nid))) } := by
        rw [hst']
        have hh := findNodeTable_updateFirst st.nodeTables n.cls.label
            (fun t => { t with rows := t.rows.filter (fun r => !(decide (r.1 = nid))) })
            (fun _ => rfl)
        rw [hh, hft]
        rfl
      rw [checkNodeExistsByClassAndId.eq_def, hfind]
      simp only
      have hnone : ¬ ((t.rows.filter (fun r => !(decide (r.1 = nid)))).any
          (fun r => decide (r.1 = nid)) = true) := by
        rw [List.any_eq_true]
        rintro ⟨x, hx, hpx⟩
        have h2 := (List.mem_filter.mp hx).2
        simp only [Bool.not_eq_eq_eq_not, Bool.not_true, decide_eq_false_iff_not] at h2
        simp only [decide_eq_true_eq] at hpx
        exact h2 hpx
      rw [Bool.not_eq_true] at hnone
      exact hnone
  · intro t ht e he
    rw [hst'] at ht
    simp only at ht
    by_cases hemp : st.relTables.isEmpty
    · rw [if_pos hemp] at ht
      rw [List.isEmpty_iff] at hemp
      rw [hemp] at ht
      simp at ht
    · rw [if_neg hemp] at ht
      exact deleteEdgesFor_spec st.relTables n.cls.label nid t ht e he

theorem delete_node_contract_witness :
    ((deleteNode insertRun.2 insertRun.1).toOption.getD (qNodeA, emptyStore)).1.id = none ∧
    checkNodeExists ((deleteNode insertRun.2 insertRun.1).toOption.getD (qNodeA, emptyStore)).2
      ((deleteNode insertRun.2 insertRun.1).toOption.getD (qNodeA, emptyStore)).1 = false ∧
    getNodeByClassAndId ((deleteNode insertRun.2 insertRun.1).toOption.getD (qNodeA, emptyStore)).2
      qNodeA.cls 0 = .ok none ∧
    (deleteNode emptyStore qNodeA).toOption = none := by
  have hmain := delete_node_contract insertRun.2 insertRun.1
    ((deleteNode insertRun.2 insertRun.1).toOption.getD (qNodeA, emptyStore)).1
    ((deleteNode insertRun.2 insertRun.1).toOption.getD (qNodeA, emptyStore)).2
    0 (by decide) (by decide) emptyStore qNodeA (by decide)
  exact ⟨hmain.1, hmain.2.1, hmain.2.2.1, hmain.2.2.2.1⟩

/-- C5: `set_property` validates before writing: when the supplied value
fails the field's declared validation, the call raises.  No state escapes a
raising call in this model — the write and the `setattr` are sequenced after
the validation, so neither the stored value nor the in-memory object is
touched. -/
theorem set_property_validate_before_write (st : StoreState) (N : NodeObj) (f : String)
    (v : PyValue) (ty : PyType)
    (hf : lookupField N.cls.fields f = some ty)
    (hv : validates ty v = false) :
    (setProperty st N f v).toOption = none := by
  rw [setProperty.eq_def]
  by_cases h0 : v = .vNone
  · rw [if_pos h0]; rfl
  · rw [if_neg h0]
    cases hft : findNodeTable st.nodeTables N.cls.label with
    | none => rfl
    | some t =>
      simp only [hf]
      by_cases hex : checkNodeExists st N = false
      · rw [if_pos hex]; rfl
      · rw [if_neg hex]
        by_cases hp : (t.properties.any (fun p => decide (p = f))) = true
        · simp only [hp, Bool.not_true, Bool.false_eq_true, if_false]
          rw [if_pos hv]
          rfl
        · rw [Bool.not_eq_true] at hp
          simp only [hp, Bool.not_false, if_true]
          rfl

theorem set_property_validate_before_write_witness :
    (setProperty insertRun.2 insertRun.1 "question" (.vInt 5)).toOption = none :=
  set_property_validate_before_write insertRun.2 insertRun.1 "question" (.vInt 5) .tStr
    (by decide) (by decide)

theorem checkRelationExists_false_of_guard (st : StoreState) (a b : NodeObj) (lbl : Option String)
    (h : (checkNodeTableExists st a.cls.label && checkNodeTableExists st b.cls.label
          && checkRelTableExists st a.cls.label b.cls.label lbl) = false) :
    checkRelationExists st a b lbl = false := by
  cases hia : a.id with
  | none => simp only [checkRelationExists.eq_def, hia]
  | some fid =>
    cases hib : b.id with
    | none => simp only [checkRelationExists.eq_def, hia, hib]
    | some tid =>
      simp only [checkRelationExists.eq_def, hia, hib, h, Bool.false_eq_true, if_false]

/-- C9: existence querying is exception-free and returns plain
false/`None`: `check_node_exists` is false for transient nodes;
`check_relation_exists` is false — without raising — when either endpoint
lacks an id, or either node table is missing, or no matching relation table
exists; `get_node_by_class_and_id` is `None` when the table or the row is
absent. -/
theorem existence_checks_exception_free
    (st : StoreState) (n a b c d e0 : NodeObj) (cls : NodeClass) (i : Int) (lbl : Option String)
    (hn : n.id = none)
    (ha : a.id = none)
    (hb : findNodeTable st.nodeTables b.cls.label = none)
    (hrt : checkRelTableExists st d.cls.label e0.cls.label lbl = false)
    (hg : checkNodeExistsByClassAndId st cls i = false) :
    checkNodeExists st n = false ∧
    checkRelationExists st a c lbl = false ∧
    checkRelationExists st c a lbl = false ∧
    checkRelationExists st b c lbl = false ∧
    checkRelationExists st c b lbl = false ∧
    checkRelationExists st d e0 lbl = false ∧
    getNodeByClassAndId st cls i = .ok none := by
  have htab : checkNodeTableExists st b.cls.label = false := by
    rw [checkNodeTableExists, hb]
    rfl
  refine ⟨?_, ?_, ?_, ?_, ?_, ?_, ?_⟩
  · rw [checkNodeExists.eq_def, hn]
  · cases hc : c.id with
    | none => simp only [checkRelationExists.eq_def, ha]
    | some ci => simp only [checkRelationExists.eq_def, ha, hc]
  · cases hc : c.id with
    | none => simp only [checkRelationExists.eq_def, hc]
    | some ci => simp only [checkRelationExists.eq_def, ha, hc]
  · exact checkRelationExists_false_of_guard st b c lbl (by rw [htab]; rfl)
  · exact checkRelationExists_false_of_guard st c b lbl (by rw [htab]; simp)
  · exact checkRelationExists_false_of_guard st d e0 lbl (by rw [hrt]; simp)
  · exact getNode_none_of_not_exists st cls i hg

theorem existence_checks_exception_free_witness :
    checkNodeExists emptyStore qNodeA = false ∧
    checkRelationExists emptyStore qNodeA qNodeB (some "p") = false ∧
    checkRelationExists emptyStore qNodeB qNodeA (some "p") = false ∧
    checkRelationExists emptyStore qNodeA qNodeB (some "p") = false ∧
    checkRelationExists emptyStore qNodeB qNodeA (some "p") = false ∧
    checkRelationExists emptyStore qNodeA qNodeB (some "p") = false ∧
    getNodeByClassAndId emptyStore qCls 0 = .ok none :=
  existence_checks_exception_free emptyStore qNodeA qNodeA qNodeA qNodeB qNodeA qNodeB
    qCls 0 (some "p") rfl rfl (by decide) (by decide) (by decide)

/-! ## Relation schema (C8) -/

theorem checkRelTableExists_ensure_mono (st : StoreState) (c d : NodeClass) (l2 : String)
    (src dst : String) (r : Option String)
    (h : checkRelTableExists st src dst r = true) :
    checkRelTableExists (ensureRelationTable st c d l2) src dst r = true := by
  rw [ensureRelationTable]
  by_cases hc : checkRelTableExists st c.label d.label (some l2) = true
  · rw [if_pos hc]; exact h
  · rw [if_neg hc, checkRelTableExists]
    rw [checkRelTableExists] at h
    simp only [List.any_append]
    rw [h]
    rfl

/-- C8: the relation schema is keyed by the (from-label, to-label, label)
triple: a table for the triple is created on first use, and distinct triples
coexist — in particular the same relation label used between two different
pairs of node classes yields two relation tables, necessarily distinct. -/
theorem relation_schema_keyed_by_triple (st : StoreState) (a b c d : NodeClass) (l : String)
    (hfirst : checkRelTableExists st a.label b.label (some l) = false) :
    ({ name := l, src := a.label, dst := b.label, edges := [] } : RelTable) ∈
      (ensureRelationTable st a b l).relTables ∧
    checkRelTableExists (ensureRelationTable (ensureRelationTable st a b l) c d l)
      a.label b.label (some l) = true ∧
    checkRelTableExists (ensureRelationTable (ensureRelationTable st a b l) c d l)
      c.label d.label (some l) = true ∧
    (¬ (a.label = c.label ∧ b.label = d.label) →
      ∀ t1 t2 : RelTable, relTableMatches t1 a.label b.label (some l) = true →
        relTableMatches t2 c.label d.label (some l) = true → ¬ t1 = t2) := by
  refine ⟨?_, ?_, ?_, ?_⟩
  · rw [ensureRelationTable, if_neg (by rw [hfirst]; exact Bool.false_ne_true)]
    simp
  · exact checkRelTableExists_ensure_mono (ensureRelationTable st a b l) c d l a.label b.label
      (some l) (checkRelTableExists_ensure st a b l)
  · exact checkRelTableExists_ensure (ensureRelationTable st a b l) c d l
  · intro hdiff t1 t2 hm1 hm2 heq
    obtain ⟨hs1, hd1, -⟩ := relTableMatches_true t1 a.label b.label (some l) hm1
    obtain ⟨hs2, hd2, -⟩ := relTableMatches_true t2 c.label d.label (some l) hm2
    rw [heq] at hs1 hd1
    exact hdiff ⟨by rw [← hs1, hs2], by rw [← hd1, hd2]⟩

theorem relation_schema_keyed_by_triple_witness :
    ({ name := "p", src := "A", dst := "B", edges := [] } : RelTable) ∈
      (ensureRelationTable emptyStore ⟨"A", []⟩ ⟨"B", []⟩ "p").relTables ∧
    checkRelTableExists
      (ensureRelationTable (ensureRelationTable emptyStore ⟨"A", []⟩ ⟨"B", []⟩ "p") ⟨"C", []⟩ ⟨"D", []⟩ "p")
      "A" "B" (some "p") = true ∧
    checkRelTableExists
      (ensureRelationTable (ensureRelationTable emptyStore ⟨"A", []⟩ ⟨"B", []⟩ "p") ⟨"C", []⟩ ⟨"D", []⟩ "p")
      "C" "D" (some "p") = true := by
  have h := relation_schema_keyed_by_triple emptyStore ⟨"A", []⟩ ⟨"B", []⟩ ⟨"C", []⟩ ⟨"D", []⟩ "p"
    (by decide)
  exact ⟨h.1, h.2.1, h.2.2.1⟩

/-! ## Per-object immutability (C7) -/

theorem labelMem_addFrozen (l : List String) (lab : String) :
    labelMem (addFrozen l lab) lab = true := by
  rw [addFrozen]
  by_cases h : labelMem l lab = true
  · rw [if_pos h]; exact h
  · rw [if_neg h, labelMem, List.any_cons]
    simp

theorem labelMem_removeFrozen (l : List String) (lab : String) :
    labelMem (removeFrozen l lab) lab = false := by
  rw [removeFrozen]
  rw [Bool.eq_false_iff]
  intro hc
  rw [labelMem, List.any_eq_true] at hc
  obtain ⟨y, hy, hdy⟩ := hc
  have h2 := (List.mem_filter.mp hy).2
  simp only [decide_eq_true_eq] at hdy
  simp only [Bool.not_eq_eq_eq_not, Bool.not_true, decide_eq_false_iff_not] at h2
  exact h2 hdy

/-- C7 counterexample: the claim fails on the code.  Insert two `Question`
objects and delete the second: the first object is still persisted and was
not itself the target of any store operation, yet direct attribute
assignment on it now succeeds — its immutability was revoked, because the
pydantic `frozen` flag lives on the shared class, not on the object. -/
theorem per_object_immutability_cex :
    checkNodeExists frozenRun.2 frozenRun.1 = true ∧
    (directSetAttr frozenRun.2 frozenRun.1 "question" (.vStr "mutated")).toOption.isSome = true := by
  decide

/-- C7 amended: before first insertion identity is unset; `insert_node`
assigns it and sets the class-level frozen flag, so direct assignment on the
object raises — but the flag is per class: `delete_node` on any node clears
it for the whole class, after which direct assignment succeeds on every
object of that class, persisted ones included. -/
theorem per_object_immutability_amended (st : StoreState) (n n' : NodeObj) (stI : StoreState)
    (st2 : StoreState) (m m' : NodeObj) (stD : StoreState)
    (h1 : insertNode st n = .ok (n', stI))
    (h2 : deleteNode st2 m = .ok (m', stD)) :
    n.id = none ∧
    n'.id.isSome = true ∧
    labelMem stI.frozen n.cls.label = true ∧
    (∀ f v, (directSetAttr stI n' f v).toOption = none) ∧
    labelMem stD.frozen m.cls.label = false ∧
    (∀ q : NodeObj, q.cls.label = m.cls.label → ∀ f v,
      directSetAttr stD q f v = .ok { q with values := setObjValue q.values f v }) := by
  obtain ⟨h0, hcls, hvals, hid⟩ := insertNode_fields st n n' stI h1
  have hfr : stI.frozen = addFrozen st.frozen n.cls.label := insertNode_frozen st n n' stI h1
  obtain ⟨-, nid, -, -, hstD⟩ := deleteNode_ok st2 m m' stD h2
  have hfrD : stD.frozen = removeFrozen st2.frozen m.cls.label := by rw [hstD]
  refine ⟨h0, by rw [hid]; rfl, by rw [hfr]; exact labelMem_addFrozen _ _, ?_, ?_, ?_⟩
  · intro f v
    rw [directSetAttr, hcls, hfr, if_pos (labelMem_addFrozen _ _)]
    rfl
  · rw [hfrD]
    exact labelMem_removeFrozen _ _
  · intro q hq f v
    rw [directSetAttr, hq, hfrD, labelMem_removeFrozen]
    simp

theorem per_object_immutability_amended_witness :
    qNodeA.id = none ∧
    insertRun.1.id.isSome = true ∧
    labelMem insertRun.2.frozen qNodeA.cls.label = true ∧
    (directSetAttr insertRun.2 insertRun.1 "question" (.vStr "x")).toOption = none ∧
    labelMem deleteRun.2.frozen qNodeA.cls.label = false := by
  have h := per_object_immutability_amended emptyStore qNodeA insertRun.1 insertRun.2
    insertRun.2 insertRun.1 deleteRun.1 deleteRun.2 (by decide) (by decide)
  exact ⟨h.1, h.2.1, h.2.2.1, h.2.2.2.1 "question" (.vStr "x"), h.2.2.2.2.1⟩

/-! ## JSON decode on read (C10) -/

theorem lookupField_map_key (props : List String) (g : String → PyValue) (f : String)
    (hf : f ∈ props) :
    lookupField (props.map (fun p => (p, g p))) f = some (g f) := by
  induction props with
  | nil => simp at hf
  | cons p rest ih =>
    rw [List.map_cons, lookupField]
    by_cases hp : p = f
    · rw [if_pos hp, hp]
    · rw [if_neg hp]
      rcases List.mem_cons.mp hf with h1 | h1
      · exact absurd h1.symm hp
      · exact ih h1

theorem decodeJsonFields_lookup : ∀ (l l2 : List (String × PyValue)) (f : String) (w0 : PyValue),
    decodeJsonFields l = .ok l2 → lookupField l f = some w0 →
    ∃ w, decodeVal w0 = .ok w ∧ lookupField l2 f = some w := by
  intro l
  induction l with
  | nil => intro l2 f w0 h hl; simp [lookupField] at hl
  | cons p rest ih =>
    intro l2 f w0 h hl
    obtain ⟨g, v⟩ := p
    rw [decodeJsonFields] at h
    cases hd : decodeVal v with
    | error e => rw [hd] at h; simp at h
    | ok v2 =>
      rw [hd] at h
      cases hr : decodeJsonFields rest with
      | error e => rw [hr] at h; simp at h
      | ok rest2 =>
        rw [hr] at h
        simp only [Except.ok.injEq] at h
        subst h
        rw [lookupField] at hl
        rw [lookupField]
        by_cases hgf : g = f
        · rw [if_pos hgf] at hl
          rw [if_pos hgf]
          injection hl with hl2
          subst hl2
          exact ⟨v2, hd, rfl⟩
        · rw [if_neg hgf] at hl
          rw [if_neg hgf]
          exact ih rest2 f w0 hr hl

theorem hasJsonTag_length (s : String) (h : hasJsonTag s = true) : 6 ≤ s.data.length := by
  rw [hasJsonTag, decide_eq_true_eq] at h
  have := congrArg List.length h
  rw [List.length_take] at this
  simp only [List.length] at this
  omega

/-- C10 (implicit): on read, JSON decoding is triggered solely by the stored
value: whenever a row's stored column value is a string bearing the `JSON__`
marker, the reconstruction pipeline strips the marker and `json.loads`-decodes
it — no type annotation is consulted — and the resulting value is never the
stored string itself, so a plain string-typed field whose stored value
happens to start with `JSON__` does not read back unchanged. -/
theorem json_decode_by_stored_value (props : List String) (rid : Int)
    (row : List (String × DbValue)) (f s : String) (dict2 : List (String × PyValue))
    (hf : f ∈ props) (hfid : ¬ f = "id")
    (hval : lookupField row f = some (.dStr s))
    (htag : hasJsonTag s = true)
    (hok : readRow props rid row = .ok dict2) :
    ∃ v, pyLoads (stripJsonTag s) = some v ∧ lookupField dict2 f = some v ∧ ¬ v = .vStr s := by
  rw [readRow] at hok
  have hdict : lookupField (rowToDict props rid row) f = some (.vStr s) := by
    rw [rowToDict]
    rw [lookupField_map_key props _ f hf]
    rw [if_neg hfid, hval]
    rfl
  obtain ⟨w, hw, hw2⟩ := decodeJsonFields_lookup (rowToDict props rid row) dict2 f (.vStr s) hok hdict
  rw [decodeVal, if_pos htag] at hw
  cases hl : pyLoads (stripJsonTag s) with
  | none => rw [hl] at hw; simp at hw
  | some j =>
    rw [hl] at hw
    simp only [Except.ok.injEq] at hw
    subst hw
    refine ⟨j, rfl, hw2, ?_⟩
    intro heq
    rw [heq] at hl
    have hshort := pyLoads_vStr_shorter (stripJsonTag s) s hl
    have hdrop : (stripJsonTag s).data.length = s.data.length - 6 := by
      rw [stripJsonTag]
      simp [List.length_drop]
    have h6 := hasJsonTag_length s htag
    omega

theorem json_decode_by_stored_value_witness :
    pyLoads (stripJsonTag "JSON__[\"x\"]") = some (.vStrList ["x"]) ∧
    ¬ (PyValue.vStrList ["x"]) = .vStr "JSON__[\"x\"]" := by
  obtain ⟨v, h1, h2, h3⟩ := json_decode_by_stored_value ["id", "question"] 0
    [("question", .dStr "JSON__[\"x\"]")] "question" "JSON__[\"x\"]"
    [("id", PyValue.vInt 0), ("question", PyValue.vStrList ["x"])]
    (by decide) (by decide) (by decide) (by decide) (by decide)
  have hv : v = .vStrList ["x"] := by
    have he : pyLoads (stripJsonTag "JSON__[\"x\"]") = some (.vStrList ["x"]) := by decide
    rw [he] at h1
    injection h1 with h4
    exact h4.symm
  rw [hv] at h3
  exact ⟨by decide, h3⟩

/-! ## Round-trip support lemmas (C2) -/

theorem lookupField_eq_none {α : Type} (l : List (String × α)) (f : String)
    (h : ¬ f ∈ l.map Prod.fst) : lookupField l f = none := by
  induction l with
  | nil => rfl
  | cons p rest ih =>
    obtain ⟨g, v⟩ := p
    rw [lookupField]
    simp only [List.map_cons, List.mem_cons] at h
    rw [if_neg (fun hc => h (Or.inl hc.symm))]
    exact ih (fun hc => h (Or.inr hc))

theorem lookupField_mem_keys {α : Type} (l : List (String × α)) (f : String)
    (h : f ∈ l.map Prod.fst) : ∃ x, lookupField l f = some x := by
  induction l with
  | nil => simp at h
  | cons p rest ih =>
    obtain ⟨g, v⟩ := p
    rw [lookupField]
    by_cases hgf : g = f
    · rw [if_pos hgf]; exact ⟨v, rfl⟩
    · rw [if_neg hgf]
      simp only [List.map_cons, List.mem_cons] at h
      rcases h with h1 | h1
      · exact absurd h1.symm hgf
      · exact ih h1

theorem lookupField_keys_mem {α : Type} (l : List (String × α)) (f : String) (x : α)
    (h : lookupField l f = some x) : f ∈ l.map Prod.fst := by
  induction l with
  | nil => simp [lookupField] at h
  | cons p rest ih =>
    obtain ⟨g, v⟩ := p
    rw [lookupField] at h
    by_cases hgf : g = f
    · simp [hgf]
    · rw [if_neg hgf] at h
      simp only [List.map_cons, List.mem_cons]
      exact Or.inr (ih h)

theorem ensureColumns_sub (fields : List (String × PyType)) :
    ∀ (props : List String) (x : String), x ∈ props → x ∈ ensureColumns props fields := by
  induction fields with
  | nil => intro props x hx; rw [ensureColumns]; exact hx
  | cons p rest ih =>
    intro props x hx
    obtain ⟨g, ty⟩ := p
    rw [ensureColumns]
    apply ih
    by_cases hg : g ∈ props
    · rw [if_pos hg]; exact hx
    · rw [if_neg hg]; exact List.mem_append_left _ hx

theorem ensureColumns_mem (fields : List (String × PyType)) :
    ∀ (props : List String) (f : String), f ∈ fields.map Prod.fst →
      f ∈ ensureColumns props fields := by
  induction fields with
  | nil => intro props f hf; simp at hf
  | cons p rest ih =>
    intro props f hf
    obtain ⟨g, ty⟩ := p
    simp only [List.map_cons, List.mem_cons] at hf
    rw [ensureColumns]
    rcases hf with h1 | h1
    · subst h1
      apply ensureColumns_sub
      by_cases hg : f ∈ props
      · rw [if_pos hg]; exact hg
      · rw [if_neg hg]; exact List.mem_append_right _ (by simp)
    · exact ih _ f h1

theorem find?_append_none {α : Type} (l1 l2 : List α) (p : α → Bool)
    (h : l1.find? p = none) : (l1 ++ l2).find? p = l2.find? p := by
  induction l1 with
  | nil => rfl
  | cons a rest ih =>
    rw [List.find?_cons] at h
    rw [List.cons_append, List.find?_cons]
    cases hp : p a with
    | true => rw [hp] at h; simp at h
    | false =>
      rw [hp] at h
      exact ih h

theorem decodeJsonFields_total : ∀ (l : List (String × PyValue)),
    (∀ q ∈ l, ∃ w, decodeVal q.2 = .ok w) → ∃ l2, decodeJsonFields l = .ok l2 := by
  intro l
  induction l with
  | nil => intro _; exact ⟨[], rfl⟩
  | cons q rest ih =>
    intro h
    obtain ⟨g, v⟩ := q
    obtain ⟨w, hw⟩ := h (g, v) (by simp)
    obtain ⟨rest2, hrest⟩ := ih (fun q hq => h q (List.mem_cons_of_mem _ hq))
    refine ⟨(g, w) :: rest2, ?_⟩
    rw [decodeJsonFields, hw, hrest]

theorem encode_decode_value (ty : PyType) (v : PyValue)
    (hval : validates ty v = true) (hnn : ¬ v = .vNone)
    (hnotag : ∀ s2, v = .vStr s2 → hasJsonTag s2 = false) :
    ∃ dv, encodeField ty v = .ok dv ∧ decodeVal (dbToPyRaw dv) = .ok v := by
  cases ty <;> cases v <;> (try exact absurd rfl hnn) <;> (try simp [validates] at hval)
  case tInt.vInt n => exact ⟨.dInt n, rfl, rfl⟩
  case tOptInt.vInt n => exact ⟨.dInt n, rfl, rfl⟩
  case tStr.vStr s =>
    refine ⟨.dStr s, rfl, ?_⟩
    rw [dbToPyRaw, decodeVal, if_neg (by rw [hnotag s rfl]; exact Bool.false_ne_true)]
  case tOptStr.vStr s =>
    refine ⟨.dStr s, rfl, ?_⟩
    rw [dbToPyRaw, decodeVal, if_neg (by rw [hnotag s rfl]; exact Bool.false_ne_true)]
  case tBool.vBool b => exact ⟨.dBool b, rfl, rfl⟩
  case tOptBool.vBool b => exact ⟨.dBool b, rfl, rfl⟩
  case tStrList.vStrList xs =>
    exact ⟨jsonEncode (.vStrList xs), rfl, decodeVal_jsonEncode_strList xs⟩
  case tOptStrList.vStrList xs =>
    exact ⟨jsonEncode (.vStrList xs), rfl, decodeVal_jsonEncode_strList xs⟩

theorem nodeParams_spec : ∀ (values : List (String × PyValue)) (cls : NodeClass)
    (params : List (String × DbValue)),
    nodeParams cls values = .ok params →
    (values.map Prod.fst).Nodup →
    ∀ f : String,
      (lookupField values f = none → lookupField params f = none) ∧
      (∀ v, lookupField values f = some v → v = .vNone → lookupField params f = none) ∧
      (∀ v, lookupField values f = some v → ¬ v = .vNone →
        ∃ ty dv, lookupField cls.fields f = some ty ∧ encodeField ty v = .ok dv ∧
          lookupField params f = some dv) ∧
      (∀ dv, lookupField params f = some dv →
        ∃ v ty, lookupField values f = some v ∧ ¬ v = .vNone ∧
          lookupField cls.fields f = some ty ∧ encodeField ty v = .ok dv) := by
  intro values
  induction values with
  | nil =>
    intro cls params hp hnd f
    rw [nodeParams] at hp
    simp only [Except.ok.injEq] at hp
    subst hp
    refine ⟨fun _ => rfl, fun v hv => by simp [lookupField] at hv,
      fun v hv => by simp [lookupField] at hv, fun dv hdv => by simp [lookupField] at hdv⟩
  | cons p rest ih =>
    intro cls params hp hnd f
    obtain ⟨g, w⟩ := p
    simp only [List.map_cons, List.nodup_cons] at hnd
    obtain ⟨hgnot, hndrest⟩ := hnd
    rw [nodeParams] at hp
    by_cases hw : w = .vNone
    · rw [if_pos hw] at hp
      have ihf := ih cls params hp hndrest
      by_cases hgf : g = f
      · subst hgf
        have hnone : lookupField rest g = none :=
          lookupField_eq_none rest g (by
            intro hc
            exact hgnot hc)
        refine ⟨?_, ?_, ?_, ?_⟩
        · intro hl
          rw [lookupField, if_pos rfl] at hl
          simp at hl
        · intro v hv hvn
          exact (ihf g).1 hnone
        · intro v hv hvn
          rw [lookupField, if_pos rfl] at hv
          injection hv with hv2
          rw [← hv2] at hvn
          exact absurd hw hvn
        · intro dv hdv
          have := (ihf g).1 hnone
          rw [this] at hdv
          simp at hdv
      · have ihf2 := ihf f
        refine ⟨?_, ?_, ?_, ?_⟩
        · intro hl
          rw [lookupField, if_neg hgf] at hl
          exact ihf2.1 hl
        · intro v hv hvn
          rw [lookupField, if_neg hgf] at hv
          exact ihf2.2.1 v hv hvn
        · intro v hv hvn
          rw [lookupField, if_neg hgf] at hv
          exact ihf2.2.2.1 v hv hvn
        · intro dv hdv
          obtain ⟨v, ty, hv, hvn, hty, henc⟩ := ihf2.2.2.2 dv hdv
          exact ⟨v, ty, by rw [lookupField, if_neg hgf]; exact hv, hvn, hty, henc⟩
    · rw [if_neg hw] at hp
      cases hty : lookupField cls.fields g with
      | none => simp only [hty] at hp; simp at hp
      | some tyg =>
        simp only [hty] at hp
        cases henc : encodeField tyg w with
        | error e => simp only [henc] at hp; simp at hp
        | ok dvg =>
          simp only [henc] at hp
          cases hrest : nodeParams cls rest with
          | error e => simp only [hrest] at hp; simp at hp
          | ok tail =>
            simp only [hrest] at hp
            simp only [Except.ok.injEq] at hp
            subst hp
            have ihf := ih cls tail hrest hndrest
            by_cases hgf : g = f
            · subst hgf
              refine ⟨?_, ?_, ?_, ?_⟩
              · intro hl
                rw [lookupField, if_pos rfl] at hl
                simp at hl
              · intro v hv hvn
                rw [lookupField, if_pos rfl] at hv
                injection hv with hv2
                rw [← hv2] at hvn
                exact absurd hvn hw
              · intro v hv hvn
                rw [lookupField, if_pos rfl] at hv
                injection hv with hv2
                subst hv2
                exact ⟨tyg, dvg, hty, henc, by rw [lookupField, if_pos rfl]⟩
              · intro dv hdv
                rw [lookupField, if_pos rfl] at hdv
                injection hdv with hdv2
                subst hdv2
                exact ⟨w, tyg, by rw [lookupField, if_pos rfl], hw, hty, henc⟩
            · have ihf2 := ihf f
              refine ⟨?_, ?_, ?_, ?_⟩
              · intro hl
                rw [lookupField, if_neg hgf] at hl
                rw [lookupField, if_neg hgf]
                exact ihf2.1 hl
              · intro v hv hvn
                rw [lookupField, if_neg hgf] at hv
                rw [lookupField, if_neg hgf]
                exact ihf2.2.1 v hv hvn
              · intro v hv hvn
                rw [lookupField, if_neg hgf] at hv
                obtain ⟨ty, dv, hty2, henc2, hlp⟩ := ihf2.2.2.1 v hv hvn
                exact ⟨ty, dv, hty2, henc2, by rw [lookupField, if_neg hgf]; exact hlp⟩
              · intro dv hdv
                rw [lookupField, if_neg hgf] at hdv
                obtain ⟨v, ty, hv, hvn, hty2, henc2⟩ := ihf2.2.2.2 dv hdv
                exact ⟨v, ty, by rw [lookupField, if_neg hgf]; exact hv, hvn, hty2, henc2⟩

theorem lookupField_mem {α : Type} (l : List (String × α)) (f : String) (x : α)
    (h : lookupField l f = some x) : (f, x) ∈ l := by
  induction l with
  | nil => simp [lookupField] at h
  | cons p rest ih =>
    obtain ⟨g, w⟩ := p
    rw [lookupField] at h
    by_cases hgf : g = f
    · rw [if_pos hgf] at h
      injection h with h2
      subst h2
      subst hgf
      simp
    · rw [if_neg hgf] at h
      exact List.mem_cons_of_mem _ (ih h)

theorem wellTypedB_spec (n : NodeObj) (h : wellTypedB n = true) :
    ∀ f v ty, lookupField n.values f = some v → lookupField n.cls.fields f = some ty →
      validates ty v = true := by
  intro f v ty hv hty
  rw [wellTypedB, List.all_eq_true] at h
  have := h (f, v) (lookupField_mem n.values f v hv)
  simp only at this
  rw [hty] at this
  exact this

theorem noTagB_spec (n : NodeObj) (h : noTagB n = true) :
    ∀ f s2, lookupField n.values f = some (.vStr s2) → hasJsonTag s2 = false := by
  intro f s2 hv
  rw [noTagB, List.all_eq_true] at h
  have := h (f, .vStr s2) (lookupField_mem n.values f _ hv)
  simp only [Bool.not_eq_eq_eq_not, Bool.not_true] at this
  exact this

theorem parseFields_roundtrip : ∀ (fields : List (String × PyType)) (values dict2 : List (String × PyValue)),
    values.map Prod.fst = fields.map Prod.fst →
    (fields.map Prod.fst).Nodup →
    (∀ f v ty, lookupField values f = some v → lookupField fields f = some ty →
      validates ty v = true) →
    (∀ f v, lookupField values f = some v → lookupField dict2 f = some v) →
    parseFields fields dict2 = .ok values := by
  intro fields
  induction fields with
  | nil =>
    intro values dict2 hkeys hnd htyped hdict
    cases values with
    | nil => rfl
    | cons q vr => simp at hkeys
  | cons p fr ih =>
    intro values dict2 hkeys hnd htyped hdict
    obtain ⟨f, ty⟩ := p
    cases values with
    | nil => simp at hkeys
    | cons q vr =>
      obtain ⟨f0, v⟩ := q
      simp only [List.map_cons, List.cons.injEq] at hkeys
      obtain ⟨hf0, hkeys2⟩ := hkeys
      subst hf0
      simp only [List.map_cons, List.nodup_cons] at hnd
      obtain ⟨hfnot, hnd2⟩ := hnd
      have hlv : lookupField ((f0, v) :: vr) f0 = some v := by rw [lookupField, if_pos rfl]
      have hlt : lookupField ((f0, ty) :: fr) f0 = some ty := by rw [lookupField, if_pos rfl]
      have hd2 : lookupField dict2 f0 = some v := hdict f0 v hlv
      have hval := htyped f0 v ty hlv hlt
      rw [parseFields, hd2]
      simp only [Option.getD_some]
      rw [if_pos hval]
      have hrec : parseFields fr dict2 = .ok vr := by
        apply ih vr dict2 hkeys2 hnd2
        · intro f' v' ty' hv' hty'
          have hne : ¬ f0 = f' := by
            intro hc
            rw [← hc] at hty'
            exact hfnot (lookupField_keys_mem fr f0 ty' hty')
          have hv2 : lookupField ((f0, v) :: vr) f' = some v' := by
            rw [lookupField, if_neg hne]; exact hv'
          have hty2 : lookupField ((f0, ty) :: fr) f' = some ty' := by
            rw [lookupField, if_neg hne]; exact hty'
          exact htyped f' v' ty' hv2 hty2
        · intro f' v' hv'
          have hne : ¬ f0 = f' := by
            intro hc
            rw [← hc] at hv'
            have := lookupField_keys_mem vr f0 v' hv'
            rw [hkeys2] at this
            exact hfnot this
          apply hdict f' v'
          rw [lookupField, if_neg hne]
          exact hv'
      rw [hrec]

/-- C2 amended: the round trip holds for a well-formed node (its value keys
match its declared fields, field names are unique and do not clash with the
reserved `id` column, every value passes its field's validation) provided no
plain string value itself starts with the reserved `JSON__` marker:
`get_node_by_class_and_id` after `insert_node` reconstructs an object whose
every field value equals the inserted node's, list-of-strings JSON fields
included. -/
theorem get_node_roundtrip (st : StoreState) (N N' : NodeObj) (st2 : StoreState)
    (h : insertNode st N = .ok (N', st2))
    (hkeys : N.values.map Prod.fst = N.cls.fields.map Prod.fst)
    (hnd : (N.cls.fields.map Prod.fst).Nodup)
    (hnoid : ¬ "id" ∈ N.cls.fields.map Prod.fst)
    (htB : wellTypedB N = true)
    (hnB : noTagB N = true)
    (htab : tableOkB st N.cls.label = true) :
    getNodeByClassAndId st2 N.cls (freshId st N.cls.label) =
      .ok (some { cls := N.cls, values := N.values, id := none }) := by
  have htyped := wellTypedB_spec N htB
  have hnotag := noTagB_spec N hnB
  obtain ⟨h0, hN', params, hp, hst⟩ := insertNode_ok st N N' st2 h
  subst hst
  have hvnodup : (N.values.map Prod.fst).Nodup := by rw [hkeys]; exact hnd
  have hspec := nodeParams_spec N.values N.cls params hp hvnodup
  have hft := insertedState_find_self st N params
  have hrows_none : (ensuredTable st N.cls).rows.find?
      (fun r => decide (r.1 = freshId st N.cls.label)) = none := by
    rw [List.find?_eq_none]
    intro r hr
    cases hftab : findNodeTable st.nodeTables N.cls.label with
    | none => rw [ensuredTable_rows_none st N.cls hftab] at hr; simp at hr
    | some t =>
      rw [ensuredTable_rows st N.cls t hftab] at hr
      rw [tableOkB, hftab, List.all_eq_true] at htab
      have hlt := htab r hr
      simp only [decide_eq_true_eq] at hlt ⊢
      have hfr : freshId st N.cls.label = t.nextId := by rw [freshId, hftab]
      omega
  have hfrow : ((ensuredTable st N.cls).rows ++ [(freshId st N.cls.label, params)]).find?
      (fun r => decide (r.1 = freshId st N.cls.label)) = some (freshId st N.cls.label, params) := by
    rw [find?_append_none _ _ _ hrows_none]
    simp
  have hdec_ok : ∀ q ∈ rowToDict (ensuredTable st N.cls).properties
      (freshId st N.cls.label) params, ∃ w, decodeVal q.2 = .ok w := by
    intro q hq
    rw [rowToDict] at hq
    obtain ⟨p, hpP, hqe⟩ := List.mem_map.mp hq
    subst hqe
    simp only
    by_cases hid : p = "id"
    · rw [if_pos hid]
      exact ⟨.vInt (freshId st N.cls.label), rfl⟩
    · rw [if_neg hid]
      cases hlp : lookupField params p with
      | none => exact ⟨.vNone, rfl⟩
      | some dv =>
        obtain ⟨v, ty, hv, hvn, hty, henc⟩ := (hspec p).2.2.2 dv hlp
        obtain ⟨dv0, henc0, hdec0⟩ := encode_decode_value ty v
          (htyped p v ty hv hty) hvn (fun s2 hs2 => hnotag p s2 (by rw [← hs2]; exact hv))
        rw [henc] at henc0
        injection henc0 with hde
        subst hde
        exact ⟨v, hdec0⟩
  obtain ⟨dict2, hdict2⟩ := decodeJsonFields_total _ hdec_ok
  have htrans : ∀ f v, lookupField N.values f = some v → lookupField dict2 f = some v := by
    intro f v hv
    have hfk : f ∈ N.cls.fields.map Prod.fst := by
      rw [← hkeys]
      exact lookupField_keys_mem N.values f v hv
    have hfP : f ∈ (ensuredTable st N.cls).properties := by
      rw [ensuredTable]
      cases hftab : findNodeTable st.nodeTables N.cls.label <;> simp only <;>
        exact ensureColumns_mem _ _ f hfk
    have hfid : ¬ f = "id" := fun hc => hnoid (by rw [← hc]; exact hfk)
    have hlook0 := lookupField_map_key (ensuredTable st N.cls).properties
      (fun p => if p = "id" then .vInt (freshId st N.cls.label)
        else match lookupField params p with
        | some dv => dbToPyRaw dv
        | none => PyValue.vNone) f hfP
    simp only [] at hlook0
    by_cases hvn : v = .vNone
    · have hlp : lookupField params f = none := (hspec f).2.1 v hv hvn
      rw [if_neg hfid] at hlook0
      simp only [hlp] at hlook0
      obtain ⟨w, hw, hw2⟩ := decodeJsonFields_lookup _ dict2 f _ hdict2 (by rw [rowToDict]; exact hlook0)
      have hw3 : PyValue.vNone = w := by
        rw [show decodeVal PyValue.vNone = Except.ok PyValue.vNone from rfl] at hw
        injection hw
      rw [hvn, hw3]
      exact hw2
    · obtain ⟨ty, dv, hty, henc, hlp⟩ := (hspec f).2.2.1 v hv hvn
      obtain ⟨dv0, henc0, hdec0⟩ := encode_decode_value ty v
        (htyped f v ty hv hty) hvn (fun s2 hs2 => hnotag f s2 (by rw [← hs2]; exact hv))
      rw [henc] at henc0
      injection henc0 with hde
      subst hde
      rw [if_neg hfid] at hlook0
      simp only [hlp] at hlook0
      obtain ⟨w, hw, hw2⟩ := decodeJsonFields_lookup _ dict2 f _ hdict2 (by rw [rowToDict]; exact hlook0)
      rw [hdec0] at hw
      injection hw with hw3
      rw [hw3]
      exact hw2
  have hparse : parseFields N.cls.fields dict2 = .ok N.values :=
    parseFields_roundtrip N.cls.fields N.values dict2 hkeys hnd htyped htrans
  rw [getNodeByClassAndId.eq_def, hft]
  simp only [hfrow, readRow, hdict2, parseObj, hparse]

/-- C2 counterexample: the round-trip claim fails as stated.  A node whose
plain string field holds the value `"JSON__[]"` is inserted (persisted with
id 0), but retrieval does not reconstruct an equal object: the stored string
triggers the JSON decode on read, the decoded list fails the string field's
validation, and `get_node_by_class_and_id` raises instead of returning the
node. -/
theorem get_node_roundtrip_cex :
    insertNode emptyStore pNodeTagged =
      .ok ({ cls := pCls, values := [("question", .vStr "JSON__[]")], id := some 0 }, taggedRun) ∧
    getNodeByClassAndId taggedRun pCls 0 = .error "pydantic.ValidationError" := by
  decide

theorem get_node_roundtrip_witness :
    getNodeByClassAndId insertRunC.2 qNodeC.cls (freshId emptyStore qNodeC.cls.label) =
      .ok (some { cls := qNodeC.cls, values := qNodeC.values, id := none }) :=
  get_node_roundtrip emptyStore qNodeC insertRunC.1 insertRunC.2 (by decide)
    (by decide) (by decide) (by decide) (by decide) (by decide) (by decide)
